import Mathlib

/-!
Verification of the energy-consumption analysis core (CSV column
classification, table normalization, and the date-range statistics engine).

The definitions below are a shallow embedding of the Python sources
`data_loader.py` and `data_analysis.py`:

* tables are lists of named columns over typed cells; a missing numeric
  value (pandas NaN) is `Option.none`;
* dates are modelled as UTC timestamps in whole seconds (`Int`); the date
  texts accepted by the model are ISO `YYYY-MM-DD` day strings, the format
  the interface layer feeds to the analysis entry points;
* Python exceptions that a caller observes are `Except.error`; exceptions
  that the code itself catches and converts to `None` results become
  `Option.none`;
* floats are modelled as rationals; the special float NaN produced by
  `Series.mean()` over an all-missing column is modelled as the inner
  `none` of an `Option (Option ℚ)` result.
-/

/-! ### String helpers -/

/-- `charsPre pat l` is true when `pat` is an initial segment of `l`
(character-list version of the Python substring test). -/
def charsPre : List Char → List Char → Bool
  | [], _ => true
  | _ :: _, [] => false
  | a :: as, b :: bs => a == b && charsPre as bs

/-- `charsSub pat l` is true when `pat` occurs contiguously inside `l`. -/
def charsSub (pat : List Char) : List Char → Bool
  | [] => pat.isEmpty
  | b :: bs => charsPre pat (b :: bs) || charsSub pat bs

/-- Python `pat in s` (substring containment). -/
def strHas (s pat : String) : Bool :=
  charsSub pat.data s.data

/-- Python `pat in s.lower()` with a lowercase pattern (ASCII lowering;
the accented letters in the French patterns are already lowercase in the
source lists). -/
def strHasCI (s pat : String) : Bool :=
  charsSub (pat.data.map Char.toLower) (s.data.map Char.toLower)

/-- Split a character list at every occurrence of a separator (the
semantics of Python `split`). -/
def splitCh (sep : Char) : List Char → List (List Char)
  | [] => [[]]
  | c :: rest =>
    let r := splitCh sep rest
    if c == sep then [] :: r
    else
      match r with
      | [] => [[c]]
      | g :: gs => (c :: g) :: gs

/-- Decimal value of a digit list, given an accumulator. -/
def digitsVal (acc : Nat) : List Char → Option Nat
  | [] => some acc
  | c :: rest =>
    if c.isDigit then digitsVal (acc * 10 + (c.toNat - 48)) rest else none

/-- A non-empty all-digit character list read as a natural number. -/
def digitsToNat (l : List Char) : Option Nat :=
  match l with
  | [] => none
  | _ :: _ => digitsVal 0 l

/-! ### Calendar arithmetic for `YYYY-MM-DD` day texts

`pd.to_datetime` on a day text yields midnight UTC of that day.  Days are
counted with the proleptic Gregorian calendar; only the relative spacing
of day numbers matters to the claims. -/

def isLeap (y : Nat) : Bool :=
  y % 4 == 0 && (y % 100 != 0 || y % 400 == 0)

def monthLen (y m : Nat) : Nat :=
  if m == 2 then (if isLeap y then 29 else 28)
  else if m == 4 || m == 6 || m == 9 || m == 11 then 30
  else 31

def daysBeforeMonth (y : Nat) : Nat → Nat
  | 0 => 0
  | 1 => 0
  | m + 1 => daysBeforeMonth y m + monthLen y m

def daysBeforeYear (y : Nat) : Nat :=
  let z := y - 1
  365 * z + z / 4 + z / 400 - z / 100

/-- Absolute day number of a calendar date. -/
def dayNum (y m d : Nat) : Nat :=
  daysBeforeYear y + daysBeforeMonth y m + (d - 1)

/-- Parse a `YYYY-MM-DD` day text to its absolute day number.  Returns
`none` exactly when the text is not a valid calendar day (the situation in
which `pd.to_datetime` raises for the day strings the interface supplies). -/
def parseDate (s : String) : Option Nat :=
  match splitCh '-' s.data with
  | [ys, ms, ds] =>
    match digitsToNat ys, digitsToNat ms, digitsToNat ds with
    | some y, some m, some d =>
      if 1 ≤ m && m ≤ 12 && 1 ≤ d && d ≤ monthLen y m then some (dayNum y m d)
      else none
    | _, _, _ => none
  | _ => none

/-! ### Cells and tables (the pandas DataFrame shape the analysis sees) -/

/-- A cell of a loaded table: either a UTC timestamp (seconds) or a
numeric value, where `num none` is a missing value (NaN). -/
inductive Cell where
  | ts (t : Int)
  | num (v : Option ℚ)
deriving Repr, DecidableEq

/-- The numeric content of a cell; timestamps and NaN read as `none`.
The analysis layer only reads consumption columns, which are numeric in
every table the loader produces. -/
def Cell.numVal : Cell → Option ℚ
  | .ts _ => none
  | .num v => v

/-- Is the cell a missing numeric value (pandas `dropna` test)? -/
def Cell.isNA : Cell → Bool
  | .num none => true
  | _ => false

/-- A DataFrame: ordered column names and rows of cells aligned with the
names. -/
structure Table where
  cols : List String
  rows : List (List Cell)
deriving Repr, DecidableEq

/-- Index of a named column (pandas column lookup). -/
def Table.colIdx (t : Table) (c : String) : Option Nat :=
  t.cols.findIdx? (fun n => n == c)

/-- The date cell of a row at a given column position, if it holds a
timestamp. -/
def rowDateCell (r : List Cell) (i : Nat) : Option Int :=
  match r.get? i with
  | some (Cell.ts d) => some d
  | _ => none

/-! ### `DataAnalysis._validate_date_range` -/

/-- `_validate_date_range`: parse both texts with `pd.to_datetime`
(midnight UTC), move the end to 23:59:59 of its day (`+ 1 day - 1 second`),
and reject ranges whose start is after the expanded end.  `Except.error`
is the `ValueError` the method raises. -/
def validateDateRange (startText endText : String) : Except String (Int × Int) :=
  match parseDate startText, parseDate endText with
  | some sd, some ed =>
    let start : Int := (sd : Int) * 86400
    let stop : Int := (ed : Int) * 86400 + 86400 - 1
    if start > stop then Except.error "Start date cannot be after end date"
    else Except.ok (start, stop)
  | _, _ => Except.error "Invalid date range"

/-! ### `DataAnalysis._filter_data_by_date` -/

/-- Column resolution of `_filter_data_by_date`, kind by kind: for gas,
the exact canonical name, else the first column whose lowercased name
contains "gas" or "gaz", else an exception; for electricity, the exact
canonical name, else the first column containing "electr" or "électr",
else an exception.  The generic "consumption" column and the first
non-date column are consulted only for consumption kinds other than the
two above (the two `elif` branches at the end of the method). -/
def resolveColumn (t : Table) (ctype : String) : Option String :=
  if ctype == "gas" then
    if t.cols.contains "gas_consumption" then some "gas_consumption"
    else (t.cols.filter (fun c => strHasCI c "gas" || strHasCI c "gaz")).head?
  else if ctype == "electricity" then
    if t.cols.contains "electricity_consumption" then some "electricity_consumption"
    else (t.cols.filter (fun c => strHasCI c "electr" || strHasCI c "électr")).head?
  else if t.cols.contains "consumption" then some "consumption"
  else (t.cols.filter (fun c => c != "date")).head?

/-- The date-range row filter: keep rows whose `date` column lies in the
inclusive interval.  Fails (models the exception path caught by the public
entry points) when there is no `date` column or when a cell of that column
is not a timestamp. -/
def filterRows (t : Table) (a b : Int) : Option (List (List Cell)) :=
  match t.colIdx "date" with
  | none => none
  | some i =>
    if t.rows.all (fun r => (rowDateCell r i).isSome) then
      some (t.rows.filter (fun r =>
        match rowDateCell r i with
        | some d => decide (a ≤ d) && decide (d ≤ b)
        | none => false))
    else none

/-- `_filter_data_by_date`: resolve the consumption column, then filter
rows by the date range; returns the filtered frame and the resolved column
name. -/
def filterDataByDate (t : Table) (a b : Int) (ctype : String) :
    Option (Table × String) :=
  match resolveColumn t ctype with
  | none => none
  | some column =>
    match filterRows t a b with
    | none => none
    | some rs => some (⟨t.cols, rs⟩, column)

/-! ### Extremum search (`Series.idxmin` / `Series.idxmax`)

`idxmin` skips missing values and returns the positional index of the
first occurrence of the least value; it raises (all values missing) when
there is nothing to compare — the public entry points catch that and
return the no-data result. -/

/-- One step of the extremum scan: combine the current cell with the
best of the remaining cells; on ties the earlier (current) index is kept. -/
def idxExtStep (better : ℚ → ℚ → Bool) (o : Option ℚ) (r : Option (Nat × ℚ)) :
    Option (Nat × ℚ) :=
  match o, r with
  | none, none => none
  | none, some (j, w) => some (j + 1, w)
  | some v, none => some (0, v)
  | some v, some (j, w) =>
    if better w v then some (j + 1, w) else some (0, v)

/-- Generic extremum scan: `better w v` says a later value `w` should
replace the current candidate `v`. -/
def idxExtVals (better : ℚ → ℚ → Bool) : List (Option ℚ) → Option (Nat × ℚ)
  | [] => none
  | o :: rest => idxExtStep better o (idxExtVals better rest)

/-- The numeric values of the column `c` of `t`, row by row. -/
def colVals (t : Table) (ci : Nat) : List (Option ℚ) :=
  t.rows.map (fun r =>
    match r.get? ci with
    | some c => c.numVal
    | none => none)

/-! ### Public query operations of `DataAnalysis`

Each catches every exception of its body and returns the no-data value,
so each is a total function into `Option`. -/

/-- Common body of `get_minimum` and `get_maximum`, which differ only in
the comparison their `idxmin`/`idxmax` scan uses: validate the range,
filter, and pair the extreme value with the cell read from the FIRST
column of the filtered frame
(`filtered.loc[min_idx, filtered.columns[0]]`). -/
def getExtremum (better : ℚ → ℚ → Bool) (t : Table)
    (startText endText ctype : String) : Option (ℚ × Cell) :=
  match validateDateRange startText endText with
  | .error _ => none
  | .ok (a, b) =>
    match filterDataByDate t a b ctype with
    | none => none
    | some (ft, column) =>
      if ft.rows.isEmpty then none
      else
        match ft.colIdx column with
        | none => none
        | some ci =>
          match idxExtVals better (colVals ft ci) with
          | none => none
          | some (mi, v) =>
            match (ft.rows.getD mi []).get? 0 with
            | some c0 => some (v, c0)
            | none => none

/-- `get_minimum`: smallest non-missing value of the resolved column among
the rows in range, paired with that row's first-column cell. -/
def getMinimum : Table → String → String → String → Option (ℚ × Cell) :=
  getExtremum (fun w v => decide (w < v))

/-- `get_maximum`: mirror image of `get_minimum` with `idxmax`. -/
def getMaximum : Table → String → String → String → Option (ℚ × Cell) :=
  getExtremum (fun w v => decide (v < w))

/-- `Series.mean()`: arithmetic mean of the non-missing values; the result
is NaN — modelled as the inner `none` — when every value is missing. -/
def seriesMean (vs : List (Option ℚ)) : Option ℚ :=
  let xs := vs.filterMap id
  if xs.isEmpty then none else some (xs.sum / (xs.length : ℚ))

/-- `get_average`: `None` (outer `none`) when the filtered frame is empty
or an exception occurred; otherwise the float returned by `mean()`, which
is NaN (inner `none`) when the column is entirely missing in range. -/
def getAverage (t : Table) (startText endText ctype : String) :
    Option (Option ℚ) :=
  match validateDateRange startText endText with
  | .error _ => none
  | .ok (a, b) =>
    match filterDataByDate t a b ctype with
    | none => none
    | some (ft, column) =>
      if ft.rows.isEmpty then none
      else
        match ft.colIdx column with
        | none => none
        | some ci => some (seriesMean (colVals ft ci))

/-- Common body of the two threshold counters: count the cells of the
resolved column that satisfy the strict comparison; a missing value
satisfies neither comparison. -/
def countDaysCmp (qual : Option ℚ → Bool) (t : Table)
    (startText endText : String) (ctype : String) : Option Nat :=
  match validateDateRange startText endText with
  | .error _ => none
  | .ok (a, b) =>
    match filterDataByDate t a b ctype with
    | none => none
    | some (ft, column) =>
      if ft.rows.isEmpty then none
      else
        match ft.colIdx column with
        | none => none
        | some ci => some ((colVals ft ci).countP qual)

/-- `count_days_above_threshold`: `(filtered[column] > threshold).sum()`;
missing values compare false and are never counted. -/
def countDaysAboveThreshold (t : Table) (startText endText : String)
    (threshold : ℚ) (ctype : String) : Option Nat :=
  countDaysCmp (fun o =>
    match o with
    | some v => decide (threshold < v)
    | none => false) t startText endText ctype

/-- `count_days_below_threshold`: strict `<` against the threshold. -/
def countDaysBelowThreshold (t : Table) (startText endText : String)
    (threshold : ℚ) (ctype : String) : Option Nat :=
  countDaysCmp (fun o =>
    match o with
    | some v => decide (v < threshold)
    | none => false) t startText endText ctype

/-- Row filter of pandas `dropna(subset=[column])`: keep rows whose cell
in the given column is present and not NaN. -/
def dropNARows (rs : List (List Cell)) (ci : Nat) : List (List Cell) :=
  rs.filter (fun r =>
    match r.get? ci with
    | some c => !c.isNA
    | none => false)

/-- Project the filtered frame to the two columns
`[filtered.columns[0], column]` (`get_data_for_period` result shape). -/
def twoColFrame (ft : Table) (column : String) (ci : Nat)
    (rs : List (List Cell)) : Option Table :=
  match ft.cols.head? with
  | none => none
  | some c0 =>
    some ⟨[c0, column],
      rs.map (fun r => [r.getD 0 (Cell.num none), r.getD ci (Cell.num none)])⟩

/-- `get_data_for_period`: the in-range rows projected to date plus the
resolved column, with rows missing in that column dropped; if the request
was for electricity and that subtable is empty, the same extraction is
re-attempted with the gas column (the source re-runs the identical
deterministic date filter and only keeps the re-resolved column name);
`None` when nothing remains. -/
def getDataForPeriod (t : Table) (startText endText ctype : String) :
    Option Table :=
  match validateDateRange startText endText with
  | .error _ => none
  | .ok (a, b) =>
    match filterDataByDate t a b ctype with
    | none => none
    | some (ft, column) =>
      if ft.rows.isEmpty then none
      else
        match ft.colIdx column with
        | none => none
        | some ci =>
          let nonEmpty := dropNARows ft.rows ci
          if !nonEmpty.isEmpty then twoColFrame ft column ci nonEmpty
          else if ctype == "electricity" then
            match resolveColumn t "gas" with
            | none => none
            | some gcol =>
              match ft.colIdx gcol with
              | none => none
              | some gi =>
                let nonEmptyGas := dropNARows ft.rows gi
                if !nonEmptyGas.isEmpty then twoColFrame ft gcol gi nonEmptyGas
                else none
          else none

/-! ### Raw CSV tables (`DataLoader._load_csv`)

A raw cell is what pandas ends up holding after `read_csv`: a string, a
number, or NaN for an empty field. -/

inductive RawCell where
  | str (s : String)
  | num (v : ℚ)
  | empty
deriving Repr, DecidableEq

/-- A raw parsed table: ordered header names and rows of raw cells aligned
with the header. -/
structure RawTable where
  header : List String
  rows : List (List RawCell)
deriving Repr, DecidableEq

/-- `pd.to_numeric(x, errors="coerce")` on one cell: numbers pass
through, numeric-looking strings (optional sign, optional decimal point)
are coerced, everything else becomes missing. -/
def parseDec (s : String) : Option ℚ :=
  let core : List Char → Option ℚ := fun b =>
    match splitCh '.' b with
    | [ip] => (digitsToNat ip).map (fun n => (n : ℚ))
    | [ip, fp] =>
      match digitsToNat ip, digitsToNat fp with
      | some i, some f => some ((i : ℚ) + (f : ℚ) / ((10 : ℚ) ^ fp.length))
      | _, _ => none
    | _ => none
  match s.data with
  | '-' :: rest => (core rest).map Neg.neg
  | l => core l

/-- Numeric coercion of a raw consumption cell. -/
def rawCellNum : RawCell → Option ℚ
  | .num v => some v
  | .str s => parseDec s
  | .empty => none

/-- `pd.to_datetime(x, utc=True)` on one raw date cell: a day text parses
to midnight UTC of that day; a number is accepted as an epoch offset (the
exact value is irrelevant to every claim); NaN becomes NaT, i.e. a missing
date that the subsequent `dropna` removes. -/
def rawCellToDate : RawCell → Option Int
  | .str s => (parseDate s).map (fun d => (d : Int) * 86400)
  | .num v => some v.floor
  | .empty => none

/-- Does `pd.to_datetime(x)` run without raising?  Numbers and NaN do
(NaN gives NaT without an exception); a string must be a parseable day. -/
def cellDateOk : RawCell → Bool
  | .str s => (parseDate s).isSome
  | .num _ => true
  | .empty => true

/-- Does `str(x)` contain a date-like "-" or "/"?  The string form of a
number contains "-" exactly when the number is negative. -/
def cellDashSlash : RawCell → Bool
  | .str s => s.data.contains '-' || s.data.contains '/'
  | .num v => decide (v < 0)
  | .empty => false

def datePatterns : List String :=
  ["date", "Date", "temps", "Temps", "time", "Time", "période", "Période"]

def elecPatterns : List String :=
  ["électricité", "electricite", "électr", "electr", "RTE"]

def gasPatterns : List String :=
  ["gaz", "gas", "GRTgaz", "Teréga"]

/-- First pattern with a case-sensitive substring match wins; among the
matching columns the first in header order is taken. -/
def findByPatterns (pats names : List String) : Option String :=
  match pats with
  | [] => none
  | p :: ps =>
    match names.filter (fun c => strHas c p) with
    | [] => findByPatterns ps names
    | c :: _ => some c

/-- Same scan with both sides lowercased (consumption-column patterns). -/
def findByPatternsCI (pats names : List String) : Option String :=
  match pats with
  | [] => none
  | p :: ps =>
    match names.filter (fun c => strHasCI c p) with
    | [] => findByPatternsCI ps names
    | c :: _ => some c

/-- The cells of column `i`, padding ragged rows with NaN the way a
DataFrame is rectangular by construction. -/
def colCells (raw : RawTable) (i : Nat) : List RawCell :=
  raw.rows.map (fun r => r.getD i RawCell.empty)

/-- pandas dtype test behind `select_dtypes(include=["number"])`: a
column is numeric when every cell is a number or empty. -/
def colNumeric (raw : RawTable) (i : Nat) : Bool :=
  (colCells raw i).all (fun c =>
    match c with
    | .num _ => true
    | .empty => true
    | .str _ => false)

/-- The numeric-typed column names, in header order. -/
def numericCols (raw : RawTable) : List String :=
  ((List.range raw.header.length).filter (fun i => colNumeric raw i)).filterMap
    (fun i => raw.header.get? i)

/-- Date-column resolution of `_load_csv`: name patterns first; else the
first column if its first cell converts without raising (an empty frame
raises IndexError, which the bare `except` swallows); else the first
column whose first five non-missing cells show a "-" or "/". -/
def dateColOf (raw : RawTable) : Option String :=
  match findByPatterns datePatterns raw.header with
  | some c => some c
  | none =>
    match raw.header.head? with
    | none => none
    | some first =>
      if (match raw.rows.head? with
          | some r => cellDateOk (r.getD 0 RawCell.empty)
          | none => false) then some first
      else
        ((List.range raw.header.length).filter (fun i =>
          (((colCells raw i).filter (fun c => c != RawCell.empty)).take 5).any
            cellDashSlash)).head?.bind
          (fun i => raw.header.get? i)

/-- Electricity/gas column classification: the named scans, and when both
fail, the first two numeric-typed columns (the source does NOT exclude
the date column from these candidates). -/
def consumptionCols (raw : RawTable) : Option String × Option String :=
  let e := findByPatternsCI elecPatterns raw.header
  let g := findByPatternsCI gasPatterns raw.header
  if e.isNone && g.isNone then ((numericCols raw).get? 0, (numericCols raw).get? 1)
  else (e, g)

/-- The rename dictionary of `_load_csv` as a function.  The dictionary is
built date first, then electricity, then gas, so a later key silently
overwrites an earlier equal one: gas wins over electricity wins over date. -/
def renameOf (dcol : String) (eOpt gOpt : Option String) (c : String) : String :=
  if gOpt == some c then "gas_consumption"
  else if eOpt == some c then "electricity_consumption"
  else if c == dcol then "date"
  else c

/-- `columns_to_keep`: date column first, then the classified consumption
columns, restricted (defensively, as in the source) to names present in
the header. -/
def loadKeepF (raw : RawTable) (dcol : String) : List String :=
  ([dcol] ++ (consumptionCols raw).1.toList ++ (consumptionCols raw).2.toList).filter
    (fun c => raw.header.contains c)

/-- Project one raw row onto the kept columns, by name. -/
def projRow (hdr keep : List String) (r : List RawCell) : List RawCell :=
  keep.map (fun n =>
    match hdr.findIdx? (fun h => h == n) with
    | some i => r.getD i RawCell.empty
    | none => RawCell.empty)

/-- Build the cells of a normalized row: position `j` carries the parsed
date, every other position the numeric coercion of its raw cell.  (At
runtime `j` is always 0 — see the column-order theorem — so this coincides
with the source coercing the columns after the first.) -/
def tagCells (j : Nat) (d : Int) : Nat → List RawCell → List Cell
  | _, [] => []
  | p, c :: cs =>
    (if p == j then Cell.ts d else Cell.num (rawCellNum c)) :: tagCells j d (p + 1) cs

/-- One row of the normalized output: `none` exactly when the date cell
fails to parse (strict pass, then the coercing retry, then the NaT drop). -/
def mkRow (hdr keep : List String) (j : Nat) (r : List RawCell) :
    Option (List Cell) :=
  let cells := projRow hdr keep r
  match rawCellToDate (cells.getD j RawCell.empty) with
  | none => none
  | some d => some (tagCells j d 0 cells)

/-- The `flag_ignore` filter: when the original table has that column,
keep only rows whose raw value there is not the string "oui". -/
def flagOkRow (raw : RawTable) (r : List RawCell) : Bool :=
  match raw.header.findIdx? (fun h => h == "flag_ignore") with
  | none => true
  | some fi => !(r.getD fi RawCell.empty == RawCell.str "oui")

/-- `_load_csv` from the point where the frame is parsed: too-few-columns
check, date/electricity/gas classification, projection, rename, date
conversion with NaT rows dropped, numeric coercion of the consumption
cells, and the `flag_ignore` row filter.  `none` is the `ValueError` the
method raises. -/
def loadCsv (raw : RawTable) : Option Table :=
  if raw.header.length < 2 then none
  else
    match dateColOf raw with
    | none => none
    | some dcol =>
      if (loadKeepF raw dcol).length < 2 then none
      else
        match ((loadKeepF raw dcol).map
            (renameOf dcol (consumptionCols raw).1
              (consumptionCols raw).2)).findIdx? (fun n => n == "date") with
        | none => none
        | some j =>
          some ⟨(loadKeepF raw dcol).map
              (renameOf dcol (consumptionCols raw).1 (consumptionCols raw).2),
            raw.rows.filterMap (fun r =>
              if flagOkRow raw r then mkRow raw.header (loadKeepF raw dcol) j r
              else none)⟩

/-! ### Canonical normalized tables (the data model of the spec)

A normalized row of the spec carries a date and the two optional
consumption values; `toTable` realizes it as the three-column frame the
loader produces for a file with both kinds. -/

structure NRow where
  date : Int
  elec : Option ℚ
  gas : Option ℚ
deriving Repr, DecidableEq

def nrowCells (r : NRow) : List Cell :=
  [Cell.ts r.date, Cell.num r.elec, Cell.num r.gas]

def normCols : List String :=
  ["date", "electricity_consumption", "gas_consumption"]

def toTable (nt : List NRow) : Table :=
  ⟨normCols, nt.map nrowCells⟩

/-- The rows of `nt` whose date lies in the inclusive interval. -/
def inR (nt : List NRow) (a b : Int) : List NRow :=
  nt.filter (fun r => decide (a ≤ r.date) && decide (r.date ≤ b))

/-- The consumption field a kind selects on a normalized row. -/
def NRow.kindVal (r : NRow) (ctype : String) : Option ℚ :=
  if ctype == "gas" then r.gas else r.elec

/-! ### Spec-side definitions, for refinement comparison only

These two follow the words of the specification, not the source, and are
used solely to exhibit where the source deviates from them. -/

/-- The column resolution the spec describes for the two consumption
kinds: exact canonical name, else first substring match, else a generic
"consumption" column, else the first non-date column, and an error only
when all four steps fail. -/
def resolveColumnSpec (t : Table) (ctype : String) : Option String :=
  let canonical :=
    if ctype == "gas" then "gas_consumption" else "electricity_consumption"
  let subMatch : String → Bool := fun c =>
    if ctype == "gas" then strHasCI c "gas" || strHasCI c "gaz"
    else strHasCI c "electr" || strHasCI c "électr"
  if t.cols.contains canonical then some canonical
  else
    match (t.cols.filter subMatch).head? with
    | some c => some c
    | none =>
      if t.cols.contains "consumption" then some "consumption"
      else (t.cols.filter (fun c => c != "date")).head?

/-- The numeric fallback the spec describes for consumption-column
classification: candidates are the numeric-typed columns EXCLUDING the
already-resolved date column. -/
def consumptionColsSpec (raw : RawTable) : Option String × Option String :=
  let e := findByPatternsCI elecPatterns raw.header
  let g := findByPatternsCI gasPatterns raw.header
  if e.isNone && g.isNone then
    let nc := (numericCols raw).filter (fun c => !(dateColOf raw == some c))
    (nc.get? 0, nc.get? 1)
  else (e, g)

/-! ### Concrete tables used by witnesses and counterexamples -/

/-- A normalized-shape frame holding only a date column and a generic
"consumption" column (the shape the loader produces for a single-column
file classified through the generic fallback). -/
def exConsTable : Table :=
  ⟨["date", "consumption"], [[Cell.ts 0, Cell.num (some 1)]]⟩

/-- Day numbers of the first days of December 2024. -/
def dec1 : Int := (dayNum 2024 12 1 : Int)

/-- The three-row electricity example of the spec: values 10, 5, 20 on
three consecutive days, with gas values 1, 2, 3. -/
def exThree : List NRow :=
  [⟨dec1 * 86400, some 10, some 1⟩,
   ⟨(dec1 + 1) * 86400, some 5, some 2⟩,
   ⟨(dec1 + 2) * 86400, some 20, some 3⟩]

/-- One in-range row whose electricity value is missing but whose gas
value is present. -/
def exMissingElec : List NRow :=
  [⟨dec1 * 86400, none, some 4⟩]

/-- Raw table whose date column is itself numeric-typed and name-matched
(header contains "date"), with no electricity/gas name match anywhere. -/
def exNumDate : RawTable :=
  ⟨["datenum", "v1"], [[RawCell.num 1, RawCell.num 2]]⟩

/-- Raw table with a parseable-date row, an unparsable-date row, and a
row whose consumption cell fails numeric coercion. -/
def exRawLoad : RawTable :=
  ⟨["date", "conso electrique"],
   [[RawCell.str "2024-01-01", RawCell.num 5],
    [RawCell.str "not a day", RawCell.num 7],
    [RawCell.str "2024-01-02", RawCell.str "abc"]]⟩

/-- The table `loadCsv` produces from `exRawLoad`. -/
def exLoaded : Table :=
  ⟨["date", "electricity_consumption"],
   [[Cell.ts ((dayNum 2024 1 1 : Int) * 86400), Cell.num (some 5)],
    [Cell.ts ((dayNum 2024 1 2 : Int) * 86400), Cell.num none]]⟩

/-! ## Lemmas -/

/-! ### Extremum-scan characterization -/

theorem idxExtVals_none_iff (better : ℚ → ℚ → Bool) (vs : List (Option ℚ)) :
    idxExtVals better vs = none ↔ ∀ o ∈ vs, o = none := by
  induction vs with
  | nil => simp [idxExtVals]
  | cons o rest ih =>
    rw [idxExtVals]
    cases o with
    | none =>
      cases hr : idxExtVals better rest with
      | none =>
        simp only [idxExtStep]
        constructor
        · intro _ o ho
          rcases List.mem_cons.mp ho with rfl | h2
          · rfl
          · exact ih.mp hr o h2
        · intro _
          trivial
      | some p =>
        obtain ⟨j, w⟩ := p
        simp only [idxExtStep]
        constructor
        · intro hc; cases hc
        · intro hall
          have hnone : idxExtVals better rest = none :=
            ih.mpr (fun o ho => hall o (by simp [ho]))
          rw [hnone] at hr; cases hr
    | some v =>
      cases hr : idxExtVals better rest with
      | none =>
        simp only [idxExtStep]
        constructor
        · intro hc; cases hc
        · intro hall; cases hall (some v) (by simp)
      | some p =>
        obtain ⟨j, w⟩ := p
        simp only [idxExtStep]
        constructor
        · intro hc
          by_cases hb : better w v = true
          · rw [if_pos hb] at hc; cases hc
          · rw [if_neg hb] at hc; cases hc
        · intro hall; cases hall (some v) (by simp)

theorem idxExtVals_get (better : ℚ → ℚ → Bool) :
    ∀ (vs : List (Option ℚ)) (j : Nat) (w : ℚ),
      idxExtVals better vs = some (j, w) → vs.get? j = some (some w)
  | [], j, w, h => by cases h
  | o :: rest, j, w, h => by
    rw [idxExtVals] at h
    cases o with
    | none =>
      cases hr : idxExtVals better rest with
      | none => rw [hr] at h; cases h
      | some p =>
        obtain ⟨j', w'⟩ := p
        rw [hr] at h
        simp only [idxExtStep] at h
        cases h
        exact idxExtVals_get better rest j' w hr
    | some v =>
      cases hr : idxExtVals better rest with
      | none =>
        rw [hr] at h
        simp only [idxExtStep] at h
        cases h
        rfl
      | some p =>
        obtain ⟨j', w'⟩ := p
        rw [hr] at h
        simp only [idxExtStep] at h
        by_cases hb : better w' v = true
        · rw [if_pos hb] at h
          cases h
          exact idxExtVals_get better rest j' w hr
        · rw [if_neg hb] at h
          cases h
          rfl

theorem idxExtVals_first (better : ℚ → ℚ → Bool) :
    ∀ (vs : List (Option ℚ)) (j : Nat) (w : ℚ),
      idxExtVals better vs = some (j, w) →
      ∀ k, k < j → ∀ u, vs.get? k = some (some u) → better w u = true
  | [], j, w, h => by cases h
  | o :: rest, j, w, h => by
    rw [idxExtVals] at h
    cases o with
    | none =>
      cases hr : idxExtVals better rest with
      | none => rw [hr] at h; cases h
      | some p =>
        obtain ⟨j', w'⟩ := p
        rw [hr] at h
        simp only [idxExtStep] at h
        cases h
        intro k hk u hu
        match k, hu with
        | Nat.succ k', hu =>
          exact idxExtVals_first better rest j' w hr k'
            (Nat.lt_of_succ_lt_succ hk) u hu
    | some v =>
      cases hr : idxExtVals better rest with
      | none =>
        rw [hr] at h
        simp only [idxExtStep] at h
        cases h
        intro k hk u hu
        cases hk
      | some p =>
        obtain ⟨j', w'⟩ := p
        rw [hr] at h
        simp only [idxExtStep] at h
        by_cases hb : better w' v = true
        · rw [if_pos hb] at h
          cases h
          intro k hk u hu
          match k, hu with
          | 0, hu =>
            cases hu
            exact hb
          | Nat.succ k', hu =>
            exact idxExtVals_first better rest j' w hr k'
              (Nat.lt_of_succ_lt_succ hk) u hu
        · rw [if_neg hb] at h
          cases h
          intro k hk u hu
          cases hk

theorem idxExtVals_best (better : ℚ → ℚ → Bool)
    (hA : ∀ x y, better x y = true → better y x = false)
    (hT : ∀ x y z, better x y = false → better y z = false → better x z = false) :
    ∀ (vs : List (Option ℚ)) (j : Nat) (w : ℚ),
      idxExtVals better vs = some (j, w) →
      ∀ k u, vs.get? k = some (some u) → better u w = false
  | [], j, w, h => by cases h
  | o :: rest, j, w, h => by
    have hirr : ∀ x : ℚ, better x x = false := by
      intro x
      by_cases hb : better x x = true
      · exact hA x x hb
      · simpa using hb
    rw [idxExtVals] at h
    cases o with
    | none =>
      cases hr : idxExtVals better rest with
      | none => rw [hr] at h; cases h
      | some p =>
        obtain ⟨j', w'⟩ := p
        rw [hr] at h
        simp only [idxExtStep] at h
        cases h
        intro k u hu
        match k, hu with
        | Nat.succ k', hu =>
          exact idxExtVals_best better hA hT rest j' w hr k' u hu
    | some v =>
      cases hr : idxExtVals better rest with
      | none =>
        rw [hr] at h
        simp only [idxExtStep] at h
        cases h
        intro k u hu
        match k, hu with
        | 0, hu =>
          cases hu
          exact hirr w
        | Nat.succ k', hu =>
          cases (idxExtVals_none_iff better rest).mp hr (some u) (List.get?_mem hu)
      | some p =>
        obtain ⟨j', w'⟩ := p
        rw [hr] at h
        simp only [idxExtStep] at h
        by_cases hb : better w' v = true
        · rw [if_pos hb] at h
          cases h
          intro k u hu
          match k, hu with
          | 0, hu =>
            cases hu
            exact hA w v hb
          | Nat.succ k', hu =>
            exact idxExtVals_best better hA hT rest j' w hr k' u hu
        · rw [if_neg hb] at h
          cases h
          intro k u hu
          match k, hu with
          | 0, hu =>
            cases hu
            exact hirr w
          | Nat.succ k', hu =>
            have h1 := idxExtVals_best better hA hT rest j' w' hr k' u hu
            exact hT u w' w h1 (by simpa using hb)

/-! ### Range-validation lemmas -/

theorem validateDateRange_ok {s e : String} {ds de : Nat}
    (hs : parseDate s = some ds) (he : parseDate e = some de)
    (hle : ds ≤ de) :
    validateDateRange s e =
      Except.ok ((ds : Int) * 86400, (de : Int) * 86400 + 86399) := by
  have harith : (de : Int) * 86400 + 86400 - 1 = (de : Int) * 86400 + 86399 := by
    omega
  have hgt : ¬ ((ds : Int) * 86400 > (de : Int) * 86400 + 86399) := by omega
  simp only [validateDateRange, hs, he, harith, if_neg hgt]

theorem validateDateRange_isOk_iff (s e : String) :
    (validateDateRange s e).isOk = true ↔
      ∃ ds de, parseDate s = some ds ∧ parseDate e = some de ∧ ds ≤ de := by
  cases hs : parseDate s with
  | none => simp [validateDateRange, hs, Except.isOk, Except.toBool]
  | some ds =>
    cases he : parseDate e with
    | none => simp [validateDateRange, hs, he, Except.isOk, Except.toBool]
    | some de =>
      by_cases hgt : (ds : Int) * 86400 > (de : Int) * 86400 + 86400 - 1
      · have hn : ¬ ds ≤ de := by omega
        simp [validateDateRange, hs, he, if_pos hgt, Except.isOk, Except.toBool, hn]
      · have hy : ds ≤ de := by omega
        simp [validateDateRange, hs, he, if_neg hgt, Except.isOk, Except.toBool, hy]

theorem validateDateRange_error_of_not_isOk {s e : String}
    (h : (validateDateRange s e).isOk = false) :
    ∃ msg, validateDateRange s e = Except.error msg := by
  cases hv : validateDateRange s e with
  | error msg => exact ⟨msg, rfl⟩
  | ok p =>
    rw [hv] at h
    cases h

/-! ### Evaluation of the pipeline on canonical normalized tables -/

theorem resolveColumn_toTable_elec (nt : List NRow) :
    resolveColumn (toTable nt) "electricity" = some "electricity_consumption" := rfl

theorem resolveColumn_toTable_gas (nt : List NRow) :
    resolveColumn (toTable nt) "gas" = some "gas_consumption" := rfl

theorem colIdx_toTable_date (nt : List NRow) :
    (toTable nt).colIdx "date" = some 0 := rfl

theorem colIdx_toTable_elec (nt : List NRow) :
    (toTable nt).colIdx "electricity_consumption" = some 1 := rfl

theorem colIdx_toTable_gas (nt : List NRow) :
    (toTable nt).colIdx "gas_consumption" = some 2 := rfl

theorem filterRows_toTable (nt : List NRow) (a b : Int) :
    filterRows (toTable nt) a b = some ((inR nt a b).map nrowCells) := by
  have hall : ((toTable nt).rows.all fun r => (rowDateCell r 0).isSome) = true := by
    rw [List.all_eq_true]
    intro r hr
    rcases List.mem_map.mp hr with ⟨x, _, rfl⟩
    rfl
  simp only [filterRows, colIdx_toTable_date]
  rw [if_pos hall]
  show some ((nt.map nrowCells).filter _) = _
  rw [List.filter_map]
  have hp : ∀ x ∈ nt,
      ((fun r => match rowDateCell r 0 with
        | some d => decide (a ≤ d) && decide (d ≤ b)
        | none => false) ∘ nrowCells) x =
      (fun r => decide (a ≤ r.date) && decide (r.date ≤ b)) x := by
    intro x _
    rfl
  rw [List.filter_congr hp]
  rfl

theorem filterDataByDate_toTable {k cname : String} (nt : List NRow) (a b : Int)
    (hres : resolveColumn (toTable nt) k = some cname) :
    filterDataByDate (toTable nt) a b k =
      some (toTable (inR nt a b), cname) := by
  simp only [filterDataByDate, hres, filterRows_toTable]
  rfl

theorem colVals_toTable_elec (nt : List NRow) :
    colVals (toTable nt) 1 = nt.map (fun r => r.elec) := by
  induction nt with
  | nil => rfl
  | cons r rest ih =>
    show r.elec :: colVals (toTable rest) 1 = r.elec :: rest.map (fun r => r.elec)
    rw [ih]

theorem colVals_toTable_gas (nt : List NRow) :
    colVals (toTable nt) 2 = nt.map (fun r => r.gas) := by
  induction nt with
  | nil => rfl
  | cons r rest ih =>
    show r.gas :: colVals (toTable rest) 2 = r.gas :: rest.map (fun r => r.gas)
    rw [ih]

theorem dropNARows_toTable_elec (nt : List NRow) :
    dropNARows (toTable nt).rows 1 =
      (nt.filter (fun r => r.elec.isSome)).map nrowCells := by
  show (nt.map nrowCells).filter _ = _
  rw [List.filter_map]
  have hp : ∀ x ∈ nt,
      ((fun r : List Cell => match r.get? 1 with
        | some c => !c.isNA
        | none => false) ∘ nrowCells) x = (fun r : NRow => r.elec.isSome) x := by
    intro x _
    obtain ⟨d, el, g⟩ := x
    cases el <;> rfl
  rw [List.filter_congr hp]

theorem dropNARows_toTable_gas (nt : List NRow) :
    dropNARows (toTable nt).rows 2 =
      (nt.filter (fun r => r.gas.isSome)).map nrowCells := by
  show (nt.map nrowCells).filter _ = _
  rw [List.filter_map]
  have hp : ∀ x ∈ nt,
      ((fun r : List Cell => match r.get? 2 with
        | some c => !c.isNA
        | none => false) ∘ nrowCells) x = (fun r : NRow => r.gas.isSome) x := by
    intro x _
    obtain ⟨d, el, g⟩ := x
    cases g <;> rfl
  rw [List.filter_congr hp]

/-- Full behaviour of `getExtremum` on a canonical normalized table and a
validated range: no-data exactly when the selected field is missing on
every in-range row, and otherwise the first-occurring extreme value paired
with the date of its own row. -/
theorem getExtremum_char (better : ℚ → ℚ → Bool)
    (hA : ∀ x y, better x y = true → better y x = false)
    (hT : ∀ x y z, better x y = false → better y z = false → better x z = false)
    (nt : List NRow) {sTxt eTxt k cname : String} {a b : Int} {ci : Nat}
    (sel : NRow → Option ℚ)
    (hok : validateDateRange sTxt eTxt = Except.ok (a, b))
    (hres : resolveColumn (toTable nt) k = some cname)
    (hci : ∀ M : List NRow, (toTable M).colIdx cname = some ci)
    (hcv : ∀ M : List NRow, colVals (toTable M) ci = M.map sel) :
    (getExtremum better (toTable nt) sTxt eTxt k = none ↔
      ∀ r ∈ inR nt a b, sel r = none) ∧
    (∀ v c, getExtremum better (toTable nt) sTxt eTxt k = some (v, c) →
      ∃ i r, (inR nt a b).get? i = some r ∧ sel r = some v ∧
        c = Cell.ts r.date ∧
        (∀ r' ∈ inR nt a b, ∀ u, sel r' = some u → better u v = false) ∧
        (∀ j, j < i → ∀ r' u, (inR nt a b).get? j = some r' →
          sel r' = some u → better v u = true)) := by
  have hmain : getExtremum better (toTable nt) sTxt eTxt k =
      (if ((inR nt a b).map nrowCells).isEmpty then none
       else
        match idxExtVals better ((inR nt a b).map sel) with
        | none => none
        | some (mi, v) =>
          match (((inR nt a b).map nrowCells).getD mi []).get? 0 with
          | some c0 => some (v, c0)
          | none => none) := by
    simp only [getExtremum, hok, filterDataByDate_toTable nt a b hres, hci, hcv]
    rfl
  rw [hmain]
  generalize inR nt a b = L
  cases L with
  | nil =>
    constructor
    · simp
    · intro v c hvc
      simp at hvc
  | cons r0 rest =>
    have hred : (if ((r0 :: rest).map nrowCells).isEmpty = true
          then (none : Option (ℚ × Cell))
          else match idxExtVals better ((r0 :: rest).map sel) with
          | none => none
          | some (mi, v) =>
            match (((r0 :: rest).map nrowCells).getD mi []).get? 0 with
            | some c0 => some (v, c0)
            | none => none) =
        (match idxExtVals better ((r0 :: rest).map sel) with
          | none => none
          | some (mi, v) =>
            match (((r0 :: rest).map nrowCells).getD mi []).get? 0 with
            | some c0 => some (v, c0)
            | none => none) := rfl
    rw [hred]
    cases hx : idxExtVals better ((r0 :: rest).map sel) with
    | none =>
      constructor
      · constructor
        · intro _ r hmem
          have hall := (idxExtVals_none_iff better _).mp hx (sel r)
            (List.mem_map.mpr ⟨r, hmem, rfl⟩)
          exact hall
        · intro _
          rfl
      · intro v c hvc
        cases hvc
    | some p =>
      obtain ⟨mi, v⟩ := p
      have hget := idxExtVals_get better _ mi v hx
      rw [List.get?_map] at hget
      rcases Option.map_eq_some'.mp hget with ⟨r, hr, hselr⟩
      have hrowsget : ((r0 :: rest).map nrowCells).get? mi = some (nrowCells r) := by
        rw [List.get?_map, hr]
        rfl
      have hgetD : ((r0 :: rest).map nrowCells).getD mi [] = nrowCells r := by
        rw [List.getD_eq_get?, hrowsget]
        rfl
      have hc0 : (nrowCells r).get? 0 = some (Cell.ts r.date) := rfl
      simp only [hgetD, hc0]
      constructor
      · constructor
        · intro hcon
          cases hcon
        · intro hall
          have := hall r (List.get?_mem hr)
          rw [this] at hselr
          cases hselr
      · intro v' c' heq
        cases heq
        refine ⟨mi, r, hr, hselr, rfl, ?_, ?_⟩
        · intro r' hmem u hu
          obtain ⟨n, hn⟩ := List.mem_iff_get?.mp hmem
          have hmap : ((r0 :: rest).map sel).get? n = some (some u) := by
            rw [List.get?_map, hn]
            simp [hu]
          exact idxExtVals_best better hA hT _ mi v hx n u hmap
        · intro j hj r' u hjr hu
          have hmap : ((r0 :: rest).map sel).get? j = some (some u) := by
            rw [List.get?_map, hjr]
            simp [hu]
          exact idxExtVals_first better _ mi v hx j hj u hmap

theorem getAverage_char (nt : List NRow) {sTxt eTxt k cname : String}
    {a b : Int} {ci : Nat} (sel : NRow → Option ℚ)
    (hok : validateDateRange sTxt eTxt = Except.ok (a, b))
    (hres : resolveColumn (toTable nt) k = some cname)
    (hci : ∀ M : List NRow, (toTable M).colIdx cname = some ci)
    (hcv : ∀ M : List NRow, colVals (toTable M) ci = M.map sel) :
    getAverage (toTable nt) sTxt eTxt k =
      (if (inR nt a b).isEmpty then none
       else some (seriesMean ((inR nt a b).map sel))) := by
  simp only [getAverage, hok, filterDataByDate_toTable nt a b hres, hci, hcv]
  generalize inR nt a b = L
  cases L with
  | nil => rfl
  | cons r0 rest => rfl

theorem countDaysCmp_char (qual : Option ℚ → Bool) (nt : List NRow)
    {sTxt eTxt k cname : String} {a b : Int} {ci : Nat} (sel : NRow → Option ℚ)
    (hok : validateDateRange sTxt eTxt = Except.ok (a, b))
    (hres : resolveColumn (toTable nt) k = some cname)
    (hci : ∀ M : List NRow, (toTable M).colIdx cname = some ci)
    (hcv : ∀ M : List NRow, colVals (toTable M) ci = M.map sel) :
    countDaysCmp qual (toTable nt) sTxt eTxt k =
      (if (inR nt a b).isEmpty then none
       else some ((inR nt a b).countP (fun r => qual (sel r)))) := by
  simp only [countDaysCmp, hok, filterDataByDate_toTable nt a b hres, hci, hcv]
  generalize inR nt a b = L
  cases L with
  | nil => rfl
  | cons r0 rest =>
    show some (((r0 :: rest).map sel).countP qual) = some ((r0 :: rest).countP _)
    rw [List.countP_map]
    rfl

theorem projRows_elec (G : List NRow) :
    (G.map nrowCells).map
        (fun r => [r.getD 0 (Cell.num none), r.getD 1 (Cell.num none)]) =
      G.map (fun r => [Cell.ts r.date, Cell.num r.elec]) := by
  induction G with
  | nil => rfl
  | cons g rest ih =>
    show [Cell.ts g.date, Cell.num g.elec] :: _ = [Cell.ts g.date, Cell.num g.elec] :: _
    rw [ih]

theorem projRows_gas (G : List NRow) :
    (G.map nrowCells).map
        (fun r => [r.getD 0 (Cell.num none), r.getD 2 (Cell.num none)]) =
      G.map (fun r => [Cell.ts r.date, Cell.num r.gas]) := by
  induction G with
  | nil => rfl
  | cons g rest ih =>
    show [Cell.ts g.date, Cell.num g.gas] :: _ = [Cell.ts g.date, Cell.num g.gas] :: _
    rw [ih]

theorem getDataForPeriod_gas_char (nt : List NRow) {sTxt eTxt : String}
    {a b : Int}
    (hok : validateDateRange sTxt eTxt = Except.ok (a, b)) :
    (inR nt a b = [] → getDataForPeriod (toTable nt) sTxt eTxt "gas" = none) ∧
    ((inR nt a b).filter (fun r => r.gas.isSome) ≠ [] →
      getDataForPeriod (toTable nt) sTxt eTxt "gas" =
        some ⟨["date", "gas_consumption"],
          ((inR nt a b).filter (fun r => r.gas.isSome)).map
            (fun r => [Cell.ts r.date, Cell.num r.gas])⟩) ∧
    (inR nt a b ≠ [] → (inR nt a b).filter (fun r => r.gas.isSome) = [] →
      getDataForPeriod (toTable nt) sTxt eTxt "gas" = none) := by
  have hbase : ∀ M : List NRow,
      inR nt a b = M →
      getDataForPeriod (toTable nt) sTxt eTxt "gas" =
        (if (M.map nrowCells).isEmpty then none
         else
           if !((M.filter (fun r => r.gas.isSome)).map nrowCells).isEmpty then
             twoColFrame (toTable M) "gas_consumption" 2
               ((M.filter (fun r => r.gas.isSome)).map nrowCells)
           else none) := by
    intro M hM
    simp only [getDataForPeriod, hok,
      filterDataByDate_toTable nt a b (resolveColumn_toTable_gas nt), hM,
      colIdx_toTable_gas, dropNARows_toTable_gas]
    rfl
  refine ⟨?_, ?_, ?_⟩
  · intro hL
    rw [hbase [] hL]
    rfl
  · intro hG
    cases hL : inR nt a b with
    | nil =>
      rw [hL] at hG
      simp at hG
    | cons r0 rest =>
      rw [hbase (r0 :: rest) hL]
      rw [hL] at hG
      cases hGl : (r0 :: rest).filter (fun r => r.gas.isSome) with
      | nil => exact absurd hGl hG
      | cons g0 grest =>
        show twoColFrame (toTable (r0 :: rest)) "gas_consumption" 2
            ((g0 :: grest).map nrowCells) = _
        simp only [twoColFrame, toTable, normCols]
        rw [projRows_gas]
        rfl
  · intro hL hG
    cases hLl : inR nt a b with
    | nil => exact absurd hLl hL
    | cons r0 rest =>
      rw [hbase (r0 :: rest) hLl]
      rw [hLl] at hG
      rw [hG]
      rfl

theorem getDataForPeriod_elec_char (nt : List NRow) {sTxt eTxt : String}
    {a b : Int}
    (hok : validateDateRange sTxt eTxt = Except.ok (a, b)) :
    (inR nt a b = [] →
      getDataForPeriod (toTable nt) sTxt eTxt "electricity" = none) ∧
    ((inR nt a b).filter (fun r => r.elec.isSome) ≠ [] →
      getDataForPeriod (toTable nt) sTxt eTxt "electricity" =
        some ⟨["date", "electricity_consumption"],
          ((inR nt a b).filter (fun r => r.elec.isSome)).map
            (fun r => [Cell.ts r.date, Cell.num r.elec])⟩) ∧
    (inR nt a b ≠ [] → (inR nt a b).filter (fun r => r.elec.isSome) = [] →
      (inR nt a b).filter (fun r => r.gas.isSome) ≠ [] →
      getDataForPeriod (toTable nt) sTxt eTxt "electricity" =
        some ⟨["date", "gas_consumption"],
          ((inR nt a b).filter (fun r => r.gas.isSome)).map
            (fun r => [Cell.ts r.date, Cell.num r.gas])⟩) ∧
    (inR nt a b ≠ [] → (inR nt a b).filter (fun r => r.elec.isSome) = [] →
      (inR nt a b).filter (fun r => r.gas.isSome) = [] →
      getDataForPeriod (toTable nt) sTxt eTxt "electricity" = none) := by
  have hbase : ∀ M : List NRow,
      inR nt a b = M →
      getDataForPeriod (toTable nt) sTxt eTxt "electricity" =
        (if (M.map nrowCells).isEmpty then none
         else
           if !((M.filter (fun r => r.elec.isSome)).map nrowCells).isEmpty then
             twoColFrame (toTable M) "electricity_consumption" 1
               ((M.filter (fun r => r.elec.isSome)).map nrowCells)
           else
             if !((M.filter (fun r => r.gas.isSome)).map nrowCells).isEmpty then
               twoColFrame (toTable M) "gas_consumption" 2
                 ((M.filter (fun r => r.gas.isSome)).map nrowCells)
             else none) := by
    intro M hM
    simp only [getDataForPeriod, hok,
      filterDataByDate_toTable nt a b (resolveColumn_toTable_elec nt), hM,
      colIdx_toTable_elec, dropNARows_toTable_elec,
      resolveColumn_toTable_gas, colIdx_toTable_gas, dropNARows_toTable_gas]
    rfl
  refine ⟨?_, ?_, ?_, ?_⟩
  · intro hL
    rw [hbase [] hL]
    rfl
  · intro hE
    cases hL : inR nt a b with
    | nil =>
      rw [hL] at hE
      simp at hE
    | cons r0 rest =>
      rw [hbase (r0 :: rest) hL]
      rw [hL] at hE
      cases hEl : (r0 :: rest).filter (fun r => r.elec.isSome) with
      | nil => exact absurd hEl hE
      | cons e0 erest =>
        show twoColFrame (toTable (r0 :: rest)) "electricity_consumption" 1
            ((e0 :: erest).map nrowCells) = _
        simp only [twoColFrame, toTable, normCols]
        rw [projRows_elec]
        rfl
  · intro hL hE hG
    cases hLl : inR nt a b with
    | nil => exact absurd hLl hL
    | cons r0 rest =>
      rw [hbase (r0 :: rest) hLl]
      rw [hLl] at hE hG
      rw [hE]
      cases hGl : (r0 :: rest).filter (fun r => r.gas.isSome) with
      | nil => exact absurd hGl hG
      | cons g0 grest =>
        show twoColFrame (toTable (r0 :: rest)) "gas_consumption" 2
            ((g0 :: grest).map nrowCells) = _
        simp only [twoColFrame, toTable, normCols]
        rw [projRows_gas]
        rfl
  · intro hL hE hG
    cases hLl : inR nt a b with
    | nil => exact absurd hLl hL
    | cons r0 rest =>
      rw [hbase (r0 :: rest) hLl]
      rw [hLl] at hE hG
      rw [hE, hG]
      rfl

/-! ### Query totality helpers -/

theorem queries_none_of_error (t : Table) {sTxt eTxt msg : String}
    (h : validateDateRange sTxt eTxt = Except.error msg) (k : String) (q : ℚ) :
    getMinimum t sTxt eTxt k = none ∧ getMaximum t sTxt eTxt k = none ∧
    getAverage t sTxt eTxt k = none ∧
    countDaysAboveThreshold t sTxt eTxt q k = none ∧
    countDaysBelowThreshold t sTxt eTxt q k = none ∧
    getDataForPeriod t sTxt eTxt k = none := by
  refine ⟨?_, ?_, ?_, ?_, ?_, ?_⟩ <;>
    simp [getMinimum, getMaximum, getExtremum, getAverage,
      countDaysAboveThreshold, countDaysBelowThreshold, countDaysCmp,
      getDataForPeriod, h]

theorem queries_none_of_empty (nt : List NRow) {sTxt eTxt : String}
    {a b : Int} (hok : validateDateRange sTxt eTxt = Except.ok (a, b))
    (hL : inR nt a b = []) (k : String) (q : ℚ) :
    getMinimum (toTable nt) sTxt eTxt k = none ∧
    getMaximum (toTable nt) sTxt eTxt k = none ∧
    getAverage (toTable nt) sTxt eTxt k = none ∧
    countDaysAboveThreshold (toTable nt) sTxt eTxt q k = none ∧
    countDaysBelowThreshold (toTable nt) sTxt eTxt q k = none ∧
    getDataForPeriod (toTable nt) sTxt eTxt k = none := by
  cases hres : resolveColumn (toTable nt) k with
  | none =>
    refine ⟨?_, ?_, ?_, ?_, ?_, ?_⟩ <;>
      simp [getMinimum, getMaximum, getExtremum, getAverage,
        countDaysAboveThreshold, countDaysBelowThreshold, countDaysCmp,
        getDataForPeriod, filterDataByDate, hok, hres]
  | some c =>
    have hfd := filterDataByDate_toTable nt a b hres
    rw [hL] at hfd
    refine ⟨?_, ?_, ?_, ?_, ?_, ?_⟩ <;>
      · simp only [getMinimum, getMaximum, getExtremum, getAverage,
          countDaysAboveThreshold, countDaysBelowThreshold, countDaysCmp,
          getDataForPeriod, hok, hfd]
        rfl

/-! ## Claims -/

/-- C1 counterexample: on a table whose columns are `date` and a generic
`consumption` column, the spec's four-step resolution for the electricity
kind finds the `consumption` column, but the source raises its
no-consumption-data error after the exact-name and substring steps fail —
the generic-column and first-non-date fallbacks are unreachable for the
electricity and gas kinds. -/
theorem c1_resolution_counterexample :
    resolveColumn exConsTable "electricity" = none ∧
    resolveColumnSpec exConsTable "electricity" = some "consumption" := by
  exact ⟨rfl, rfl⟩

/-- C1 amended: for the electricity and gas kinds the range filter
resolves its column in two steps only — the exact canonical name, else the
first case-insensitive substring match — and fails with
NoConsumptionDataError exactly when both steps find nothing; the generic
`consumption` column and the first non-date column are never consulted for
these two kinds. -/
theorem c1_resolution_two_steps (t : Table) :
    ((t.cols.contains "electricity_consumption" = true →
        resolveColumn t "electricity" = some "electricity_consumption") ∧
     (t.cols.contains "electricity_consumption" = false →
        resolveColumn t "electricity" =
          (t.cols.filter
            (fun c => strHasCI c "electr" || strHasCI c "électr")).head?) ∧
     (resolveColumn t "electricity" = none ↔
        t.cols.contains "electricity_consumption" = false ∧
        t.cols.filter (fun c => strHasCI c "electr" || strHasCI c "électr") = [])) ∧
    ((t.cols.contains "gas_consumption" = true →
        resolveColumn t "gas" = some "gas_consumption") ∧
     (t.cols.contains "gas_consumption" = false →
        resolveColumn t "gas" =
          (t.cols.filter (fun c => strHasCI c "gas" || strHasCI c "gaz")).head?) ∧
     (resolveColumn t "gas" = none ↔
        t.cols.contains "gas_consumption" = false ∧
        t.cols.filter (fun c => strHasCI c "gas" || strHasCI c "gaz") = [])) := by
  have he : resolveColumn t "electricity" =
      (if t.cols.contains "electricity_consumption" then
        some "electricity_consumption"
      else (t.cols.filter
        (fun c => strHasCI c "electr" || strHasCI c "électr")).head?) := rfl
  have hg : resolveColumn t "gas" =
      (if t.cols.contains "gas_consumption" then some "gas_consumption"
      else (t.cols.filter
        (fun c => strHasCI c "gas" || strHasCI c "gaz")).head?) := rfl
  constructor
  · refine ⟨?_, ?_, ?_⟩
    · intro h
      rw [he, if_pos h]
    · intro h
      have h' : ¬ (t.cols.contains "electricity_consumption" = true) := by
        rw [h]
        exact Bool.false_ne_true
      rw [he, if_neg h']
    · cases h : t.cols.contains "electricity_consumption" with
      | true =>
        rw [he, if_pos h]
        constructor
        · intro hc
          cases hc
        · intro hc
          cases hc.1
      | false =>
        have h' : ¬ (t.cols.contains "electricity_consumption" = true) := by
          rw [h]
          exact Bool.false_ne_true
        rw [he, if_neg h']
        constructor
        · intro hc
          exact ⟨rfl, List.head?_eq_none_iff.mp hc⟩
        · intro hc
          exact List.head?_eq_none_iff.mpr hc.2
  · refine ⟨?_, ?_, ?_⟩
    · intro h
      rw [hg, if_pos h]
    · intro h
      have h' : ¬ (t.cols.contains "gas_consumption" = true) := by
        rw [h]
        exact Bool.false_ne_true
      rw [hg, if_neg h']
    · cases h : t.cols.contains "gas_consumption" with
      | true =>
        rw [hg, if_pos h]
        constructor
        · intro hc
          cases hc
        · intro hc
          cases hc.1
      | false =>
        have h' : ¬ (t.cols.contains "gas_consumption" = true) := by
          rw [h]
          exact Bool.false_ne_true
        rw [hg, if_neg h']
        constructor
        · intro hc
          exact ⟨rfl, List.head?_eq_none_iff.mp hc⟩
        · intro hc
          exact List.head?_eq_none_iff.mpr hc.2

/-- C1 amended, instantiated: the substring step picks the gas column of
the canonical table, and the error case fires on the consumption-only
table. -/
theorem c1_resolution_two_steps_witness :
    resolveColumn exConsTable "electricity" =
      (exConsTable.cols.filter
        (fun c => strHasCI c "electr" || strHasCI c "électr")).head? :=
  (c1_resolution_two_steps exConsTable).1.2.1 rfl

/-- C6: range validation expands a parsed pair of day texts to
[00:00:00, 23:59:59] UTC of the two days, succeeds exactly when both texts
parse and the start day is not after the end day (so equal days are
accepted and a reversed pair is rejected), and row filtering keeps exactly
the rows whose date lies in the inclusive interval. -/
theorem c6_range_expansion_and_inclusive_filter (sTxt eTxt : String)
    (nt : List NRow) (a b : Int) :
    (∀ ds de, parseDate sTxt = some ds → parseDate eTxt = some de → ds ≤ de →
      validateDateRange sTxt eTxt =
        Except.ok ((ds : Int) * 86400, (de : Int) * 86400 + 86399)) ∧
    ((validateDateRange sTxt eTxt).isOk = true ↔
      ∃ ds de, parseDate sTxt = some ds ∧ parseDate eTxt = some de ∧
        ds ≤ de) ∧
    filterRows (toTable nt) a b =
      some ((nt.filter
        (fun r => decide (a ≤ r.date) && decide (r.date ≤ b))).map nrowCells) :=
  ⟨fun _ _ hs he hle => validateDateRange_ok hs he hle,
   validateDateRange_isOk_iff sTxt eTxt,
   filterRows_toTable nt a b⟩

/-- C6 instantiated at the spec's two examples: an equal-day range is
accepted and spans the whole day; a reversed range is rejected. -/
theorem c6_range_expansion_witness :
    validateDateRange "2024-12-01" "2024-12-01" =
      Except.ok ((dayNum 2024 12 1 : Int) * 86400,
        (dayNum 2024 12 1 : Int) * 86400 + 86399) ∧
    (validateDateRange "2024-12-05" "2024-12-01").isOk = false := by
  constructor
  · exact (c6_range_expansion_and_inclusive_filter "2024-12-01" "2024-12-01"
      [] 0 0).1 (dayNum 2024 12 1) (dayNum 2024 12 1) rfl rfl le_rfl
  · by_contra hne
    have hok : (validateDateRange "2024-12-05" "2024-12-01").isOk = true := by
      cases h : (validateDateRange "2024-12-05" "2024-12-01").isOk
      · exact absurd h hne
      · rfl
    obtain ⟨ds, de, hds, hde, hle⟩ :=
      (c6_range_expansion_and_inclusive_filter "2024-12-05" "2024-12-01"
        [] 0 0).2.1.mp hok
    rw [show parseDate "2024-12-05" = some (dayNum 2024 12 5) from rfl] at hds
    rw [show parseDate "2024-12-01" = some (dayNum 2024 12 1) from rfl] at hde
    cases hds
    cases hde
    exact absurd hle (by decide)

/-- C2: the range-validation entry point succeeds exactly on well-formed
non-reversed ranges (so it fails fast with InvalidRangeError on malformed
or reversed ones); every public query operation maps that failure to the
NoData result instead of raising; and over a valid range with no rows the
queries again return NoData while validation itself reports success — so a
caller distinguishes the two outcomes by the validation verdict. -/
theorem c2_total_queries_fail_fast_validation (t : Table) (nt : List NRow)
    (sTxt eTxt k : String) (q : ℚ) :
    ((validateDateRange sTxt eTxt).isOk = true ↔
      ∃ ds de, parseDate sTxt = some ds ∧ parseDate eTxt = some de ∧
        ds ≤ de) ∧
    (∀ msg, validateDateRange sTxt eTxt = Except.error msg →
      getMinimum t sTxt eTxt k = none ∧ getMaximum t sTxt eTxt k = none ∧
      getAverage t sTxt eTxt k = none ∧
      countDaysAboveThreshold t sTxt eTxt q k = none ∧
      countDaysBelowThreshold t sTxt eTxt q k = none ∧
      getDataForPeriod t sTxt eTxt k = none) ∧
    (∀ a b, validateDateRange sTxt eTxt = Except.ok (a, b) →
      inR nt a b = [] →
      getMinimum (toTable nt) sTxt eTxt k = none ∧
      getMaximum (toTable nt) sTxt eTxt k = none ∧
      getAverage (toTable nt) sTxt eTxt k = none ∧
      countDaysAboveThreshold (toTable nt) sTxt eTxt q k = none ∧
      countDaysBelowThreshold (toTable nt) sTxt eTxt q k = none ∧
      getDataForPeriod (toTable nt) sTxt eTxt k = none) :=
  ⟨validateDateRange_isOk_iff sTxt eTxt,
   fun _ h => queries_none_of_error t h k q,
   fun _ _ hok hL => queries_none_of_empty nt hok hL k q⟩

/-- C2 instantiated: a reversed range makes the validator fail and the
queries return NoData; a valid but empty range returns NoData with the
validator succeeding. -/
theorem c2_total_queries_witness :
    getMinimum (toTable []) "2024-12-05" "2024-12-01" "electricity" = none ∧
    getAverage (toTable []) "2024-12-01" "2024-12-02" "electricity" = none :=
  ⟨((c2_total_queries_fail_fast_validation (toTable []) [] "2024-12-05"
      "2024-12-01" "electricity" 0).2.1
      "Start date cannot be after end date" rfl).1,
   ((c2_total_queries_fail_fast_validation (toTable []) [] "2024-12-01"
      "2024-12-02" "electricity" 0).2.2
      ((dayNum 2024 12 1 : Int) * 86400)
      ((dayNum 2024 12 2 : Int) * 86400 + 86399)
      (validateDateRange_ok rfl rfl (by decide)) rfl).2.2.1⟩

/-- C3: over a normalized table and a validated range, `get_minimum`
(resp. `get_maximum`) returns NoData exactly when the selected consumption
field is missing on every in-range row, and otherwise the least (resp.
greatest) non-missing value paired with the date of its own row, the
earliest such row on ties. -/
theorem c3_extrema_with_dates (nt : List NRow) (sTxt eTxt k : String)
    (ds de : Nat) (hs : parseDate sTxt = some ds)
    (he : parseDate eTxt = some de) (hle : ds ≤ de)
    (hk : k = "electricity" ∨ k = "gas") :
    ((getMinimum (toTable nt) sTxt eTxt k = none ↔
      ∀ r ∈ inR nt ((ds : Int) * 86400) ((de : Int) * 86400 + 86399),
        r.kindVal k = none) ∧
     (∀ v c, getMinimum (toTable nt) sTxt eTxt k = some (v, c) →
      ∃ i r,
        (inR nt ((ds : Int) * 86400) ((de : Int) * 86400 + 86399)).get? i =
          some r ∧
        r.kindVal k = some v ∧ c = Cell.ts r.date ∧
        (∀ r' ∈ inR nt ((ds : Int) * 86400) ((de : Int) * 86400 + 86399),
          ∀ u, r'.kindVal k = some u → v ≤ u) ∧
        (∀ j, j < i → ∀ r' u,
          (inR nt ((ds : Int) * 86400) ((de : Int) * 86400 + 86399)).get? j =
            some r' → r'.kindVal k = some u → v < u))) ∧
    ((getMaximum (toTable nt) sTxt eTxt k = none ↔
      ∀ r ∈ inR nt ((ds : Int) * 86400) ((de : Int) * 86400 + 86399),
        r.kindVal k = none) ∧
     (∀ v c, getMaximum (toTable nt) sTxt eTxt k = some (v, c) →
      ∃ i r,
        (inR nt ((ds : Int) * 86400) ((de : Int) * 86400 + 86399)).get? i =
          some r ∧
        r.kindVal k = some v ∧ c = Cell.ts r.date ∧
        (∀ r' ∈ inR nt ((ds : Int) * 86400) ((de : Int) * 86400 + 86399),
          ∀ u, r'.kindVal k = some u → u ≤ v) ∧
        (∀ j, j < i → ∀ r' u,
          (inR nt ((ds : Int) * 86400) ((de : Int) * 86400 + 86399)).get? j =
            some r' → r'.kindVal k = some u → u < v))) := by
  have hok := validateDateRange_ok hs he hle
  have hAmin : ∀ x y : ℚ, decide (x < y) = true → decide (y < x) = false := by
    intro x y h
    have := of_decide_eq_true h
    exact decide_eq_false (not_lt.mpr this.le)
  have hTmin : ∀ x y z : ℚ, decide (x < y) = false → decide (y < z) = false →
      decide (x < z) = false := by
    intro x y z h1 h2
    have h1' := of_decide_eq_false h1
    have h2' := of_decide_eq_false h2
    exact decide_eq_false (not_lt.mpr (le_trans (not_lt.mp h2') (not_lt.mp h1')))
  have hAmax : ∀ x y : ℚ, decide (y < x) = true → decide (x < y) = false := by
    intro x y h
    have := of_decide_eq_true h
    exact decide_eq_false (not_lt.mpr this.le)
  have hTmax : ∀ x y z : ℚ, decide (y < x) = false → decide (z < y) = false →
      decide (z < x) = false := by
    intro x y z h1 h2
    have h1' := of_decide_eq_false h1
    have h2' := of_decide_eq_false h2
    exact decide_eq_false (not_lt.mpr (le_trans (not_lt.mp h1') (not_lt.mp h2')))
  rcases hk with rfl | rfl
  · have hmin := getExtremum_char (fun w v => decide (w < v)) hAmin hTmin nt
      (fun r => r.elec) hok (resolveColumn_toTable_elec nt)
      colIdx_toTable_elec colVals_toTable_elec
    have hmax := getExtremum_char (fun w v => decide (v < w)) hAmax hTmax nt
      (fun r => r.elec) hok (resolveColumn_toTable_elec nt)
      colIdx_toTable_elec colVals_toTable_elec
    refine ⟨⟨hmin.1, ?_⟩, ⟨hmax.1, ?_⟩⟩
    · intro v c hvc
      obtain ⟨i, r, h1, h2, h3, h4, h5⟩ := hmin.2 v c hvc
      refine ⟨i, r, h1, h2, h3, ?_, ?_⟩
      · intro r' hm u hu
        exact not_lt.mp (of_decide_eq_false (h4 r' hm u hu))
      · intro j hj r' u hg hu
        exact of_decide_eq_true (h5 j hj r' u hg hu)
    · intro v c hvc
      obtain ⟨i, r, h1, h2, h3, h4, h5⟩ := hmax.2 v c hvc
      refine ⟨i, r, h1, h2, h3, ?_, ?_⟩
      · intro r' hm u hu
        exact not_lt.mp (of_decide_eq_false (h4 r' hm u hu))
      · intro j hj r' u hg hu
        exact of_decide_eq_true (h5 j hj r' u hg hu)
  · have hmin := getExtremum_char (fun w v => decide (w < v)) hAmin hTmin nt
      (fun r => r.gas) hok (resolveColumn_toTable_gas nt)
      colIdx_toTable_gas colVals_toTable_gas
    have hmax := getExtremum_char (fun w v => decide (v < w)) hAmax hTmax nt
      (fun r => r.gas) hok (resolveColumn_toTable_gas nt)
      colIdx_toTable_gas colVals_toTable_gas
    refine ⟨⟨hmin.1, ?_⟩, ⟨hmax.1, ?_⟩⟩
    · intro v c hvc
      obtain ⟨i, r, h1, h2, h3, h4, h5⟩ := hmin.2 v c hvc
      refine ⟨i, r, h1, h2, h3, ?_, ?_⟩
      · intro r' hm u hu
        exact not_lt.mp (of_decide_eq_false (h4 r' hm u hu))
      · intro j hj r' u hg hu
        exact of_decide_eq_true (h5 j hj r' u hg hu)
    · intro v c hvc
      obtain ⟨i, r, h1, h2, h3, h4, h5⟩ := hmax.2 v c hvc
      refine ⟨i, r, h1, h2, h3, ?_, ?_⟩
      · intro r' hm u hu
        exact not_lt.mp (of_decide_eq_false (h4 r' hm u hu))
      · intro j hj r' u hg hu
        exact of_decide_eq_true (h5 j hj r' u hg hu)

/-- C3 instantiated at the spec's three-row example: both extrema exist. -/
theorem c3_extrema_witness :
    getMinimum (toTable exThree) "2024-12-01" "2024-12-03" "electricity" ≠
      none ∧
    getMaximum (toTable exThree) "2024-12-01" "2024-12-03" "electricity" ≠
      none := by
  have h := c3_extrema_with_dates exThree "2024-12-01" "2024-12-03"
    "electricity" (dayNum 2024 12 1) (dayNum 2024 12 3) rfl rfl (by decide)
    (Or.inl rfl)
  have hmem : (⟨dec1 * 86400, some 10, some 1⟩ : NRow) ∈
      inR exThree ((dayNum 2024 12 1 : Int) * 86400)
        ((dayNum 2024 12 3 : Int) * 86400 + 86399) := by decide
  constructor
  · intro hnone
    have := h.1.1.mp hnone _ hmem
    cases this
  · intro hnone
    have := h.2.1.mp hnone _ hmem
    cases this

theorem seriesMean_none_iff (vs : List (Option ℚ)) :
    seriesMean vs = none ↔ ∀ o ∈ vs, o = none := by
  rcases hxs : vs.filterMap id with - | ⟨x, xs⟩
  · simp only [seriesMean, hxs]
    constructor
    · intro _ o ho
      have := List.filterMap_eq_nil.mp hxs o ho
      simpa using this
    · intro _
      rfl
  · simp only [seriesMean, hxs]
    constructor
    · intro hc
      cases hc
    · intro hall
      have hx : x ∈ vs.filterMap id := by
        rw [hxs]
        exact List.mem_cons_self x xs
      rcases List.mem_filterMap.mp hx with ⟨o, ho, hoo⟩
      have := hall o ho
      rw [this] at hoo
      cases hoo

/-- C4 counterexample: a range containing exactly one row whose
electricity value is missing — the filtered set has no non-missing value,
yet `get_average` returns the float NaN (the inner `none`), not the
NoData result `none` the claim requires. -/
theorem c4_average_nan_counterexample :
    inR exMissingElec ((dayNum 2024 12 1 : Int) * 86400)
      ((dayNum 2024 12 1 : Int) * 86400 + 86399) ≠ [] ∧
    (∀ r ∈ inR exMissingElec ((dayNum 2024 12 1 : Int) * 86400)
      ((dayNum 2024 12 1 : Int) * 86400 + 86399), r.elec = none) ∧
    getAverage (toTable exMissingElec) "2024-12-01" "2024-12-01"
      "electricity" = some none ∧
    getAverage (toTable exMissingElec) "2024-12-01" "2024-12-01"
      "electricity" ≠ none :=
  ⟨by decide, by decide, rfl, by decide⟩

/-- C4 amended: `get_average` returns NoData exactly when no rows fall in
the validated range; when rows exist it returns the arithmetic mean of
the non-missing values of the selected column, and that result is the
float NaN — still a returned value, distinct from NoData — exactly when
every value in range is missing. -/
theorem c4_average_mean_or_nan (nt : List NRow) (sTxt eTxt k : String)
    (ds de : Nat) (hs : parseDate sTxt = some ds)
    (he : parseDate eTxt = some de) (hle : ds ≤ de)
    (hk : k = "electricity" ∨ k = "gas") :
    (inR nt ((ds : Int) * 86400) ((de : Int) * 86400 + 86399) = [] →
      getAverage (toTable nt) sTxt eTxt k = none) ∧
    (inR nt ((ds : Int) * 86400) ((de : Int) * 86400 + 86399) ≠ [] →
      getAverage (toTable nt) sTxt eTxt k =
        some (seriesMean
          ((inR nt ((ds : Int) * 86400) ((de : Int) * 86400 + 86399)).map
            (fun r => r.kindVal k)))) ∧
    (seriesMean
        ((inR nt ((ds : Int) * 86400) ((de : Int) * 86400 + 86399)).map
          (fun r => r.kindVal k)) = none ↔
      ∀ r ∈ inR nt ((ds : Int) * 86400) ((de : Int) * 86400 + 86399),
        r.kindVal k = none) := by
  have hok := validateDateRange_ok hs he hle
  rcases hk with rfl | rfl
  · have hch := getAverage_char nt (fun r => r.elec) hok
      (resolveColumn_toTable_elec nt) colIdx_toTable_elec colVals_toTable_elec
    refine ⟨?_, ?_, ?_⟩
    · intro hL
      rw [hch, hL]
      rfl
    · intro hne
      have hni : ¬ ((inR nt ((ds : Int) * 86400)
          ((de : Int) * 86400 + 86399)).isEmpty = true) := by
        simpa [List.isEmpty_iff] using hne
      rw [hch, if_neg hni]
      rfl
    · show seriesMean
          ((inR nt ((ds : Int) * 86400) ((de : Int) * 86400 + 86399)).map
            (fun r => r.elec)) = none ↔
        ∀ r ∈ inR nt ((ds : Int) * 86400) ((de : Int) * 86400 + 86399),
          r.elec = none
      rw [seriesMean_none_iff]
      constructor
      · intro hall r hr
        exact hall _ (List.mem_map.mpr ⟨r, hr, rfl⟩)
      · intro hall o ho
        rcases List.mem_map.mp ho with ⟨r, hr, rfl⟩
        exact hall r hr
  · have hch := getAverage_char nt (fun r => r.gas) hok
      (resolveColumn_toTable_gas nt) colIdx_toTable_gas colVals_toTable_gas
    refine ⟨?_, ?_, ?_⟩
    · intro hL
      rw [hch, hL]
      rfl
    · intro hne
      have hni : ¬ ((inR nt ((ds : Int) * 86400)
          ((de : Int) * 86400 + 86399)).isEmpty = true) := by
        simpa [List.isEmpty_iff] using hne
      rw [hch, if_neg hni]
      rfl
    · show seriesMean
          ((inR nt ((ds : Int) * 86400) ((de : Int) * 86400 + 86399)).map
            (fun r => r.gas)) = none ↔
        ∀ r ∈ inR nt ((ds : Int) * 86400) ((de : Int) * 86400 + 86399),
          r.gas = none
      rw [seriesMean_none_iff]
      constructor
      · intro hall r hr
        exact hall _ (List.mem_map.mpr ⟨r, hr, rfl⟩)
      · intro hall o ho
        rcases List.mem_map.mp ho with ⟨r, hr, rfl⟩
        exact hall r hr

/-- C4 amended, instantiated: one in-range all-missing row yields the NaN
result. -/
theorem c4_average_mean_or_nan_witness :
    getAverage (toTable exMissingElec) "2024-12-01" "2024-12-01"
      "electricity" =
      some (seriesMean
        ((inR exMissingElec ((dayNum 2024 12 1 : Int) * 86400)
          ((dayNum 2024 12 1 : Int) * 86400 + 86399)).map
          (fun r => r.kindVal "electricity"))) :=
  (c4_average_mean_or_nan exMissingElec "2024-12-01" "2024-12-01"
    "electricity" (dayNum 2024 12 1) (dayNum 2024 12 1) rfl rfl le_rfl
    (Or.inl rfl)).2.1 (by decide)

/-- C5: over a normalized table and a validated range, the two counters
return NoData exactly when no rows fall in the range, and otherwise count
exactly the in-range rows whose selected value is present and strictly
beyond the threshold — missing values never qualify, and a populated range
with no qualifying row yields the count 0, not NoData. -/
theorem c5_threshold_counts (nt : List NRow) (sTxt eTxt k : String) (q : ℚ)
    (ds de : Nat) (hs : parseDate sTxt = some ds)
    (he : parseDate eTxt = some de) (hle : ds ≤ de)
    (hk : k = "electricity" ∨ k = "gas") :
    (inR nt ((ds : Int) * 86400) ((de : Int) * 86400 + 86399) = [] →
      countDaysAboveThreshold (toTable nt) sTxt eTxt q k = none ∧
      countDaysBelowThreshold (toTable nt) sTxt eTxt q k = none) ∧
    (inR nt ((ds : Int) * 86400) ((de : Int) * 86400 + 86399) ≠ [] →
      countDaysAboveThreshold (toTable nt) sTxt eTxt q k =
        some ((inR nt ((ds : Int) * 86400)
          ((de : Int) * 86400 + 86399)).countP (fun r =>
            match r.kindVal k with
            | some v => decide (q < v)
            | none => false)) ∧
      countDaysBelowThreshold (toTable nt) sTxt eTxt q k =
        some ((inR nt ((ds : Int) * 86400)
          ((de : Int) * 86400 + 86399)).countP (fun r =>
            match r.kindVal k with
            | some v => decide (v < q)
            | none => false))) := by
  have hok := validateDateRange_ok hs he hle
  rcases hk with rfl | rfl
  · have hab := countDaysCmp_char (fun o =>
      match o with
      | some v => decide (q < v)
      | none => false) nt (fun r => r.elec) hok
      (resolveColumn_toTable_elec nt) colIdx_toTable_elec colVals_toTable_elec
    have hbe := countDaysCmp_char (fun o =>
      match o with
      | some v => decide (v < q)
      | none => false) nt (fun r => r.elec) hok
      (resolveColumn_toTable_elec nt) colIdx_toTable_elec colVals_toTable_elec
    constructor
    · intro hL
      constructor
      · show countDaysCmp _ (toTable nt) sTxt eTxt "electricity" = none
        rw [hab, hL]
        rfl
      · show countDaysCmp _ (toTable nt) sTxt eTxt "electricity" = none
        rw [hbe, hL]
        rfl
    · intro hne
      have hni : ¬ ((inR nt ((ds : Int) * 86400)
          ((de : Int) * 86400 + 86399)).isEmpty = true) := by
        simpa [List.isEmpty_iff] using hne
      constructor
      · show countDaysCmp _ (toTable nt) sTxt eTxt "electricity" = _
        rw [hab, if_neg hni]
        rfl
      · show countDaysCmp _ (toTable nt) sTxt eTxt "electricity" = _
        rw [hbe, if_neg hni]
        rfl
  · have hab := countDaysCmp_char (fun o =>
      match o with
      | some v => decide (q < v)
      | none => false) nt (fun r => r.gas) hok
      (resolveColumn_toTable_gas nt) colIdx_toTable_gas colVals_toTable_gas
    have hbe := countDaysCmp_char (fun o =>
      match o with
      | some v => decide (v < q)
      | none => false) nt (fun r => r.gas) hok
      (resolveColumn_toTable_gas nt) colIdx_toTable_gas colVals_toTable_gas
    constructor
    · intro hL
      constructor
      · show countDaysCmp _ (toTable nt) sTxt eTxt "gas" = none
        rw [hab, hL]
        rfl
      · show countDaysCmp _ (toTable nt) sTxt eTxt "gas" = none
        rw [hbe, hL]
        rfl
    · intro hne
      have hni : ¬ ((inR nt ((ds : Int) * 86400)
          ((de : Int) * 86400 + 86399)).isEmpty = true) := by
        simpa [List.isEmpty_iff] using hne
      constructor
      · show countDaysCmp _ (toTable nt) sTxt eTxt "gas" = _
        rw [hab, if_neg hni]
        rfl
      · show countDaysCmp _ (toTable nt) sTxt eTxt "gas" = _
        rw [hbe, if_neg hni]
        rfl

/-- C5 instantiated at the spec's example: over values [10, 5, 20] with
threshold 10, exactly one day counts above (20) and one below (5). -/
theorem c5_threshold_counts_witness :
    countDaysAboveThreshold (toTable exThree) "2024-12-01" "2024-12-03" 10
      "electricity" = some 1 ∧
    countDaysBelowThreshold (toTable exThree) "2024-12-01" "2024-12-03" 10
      "electricity" = some 1 := by
  have h := (c5_threshold_counts exThree "2024-12-01" "2024-12-03"
    "electricity" 10 (dayNum 2024 12 1) (dayNum 2024 12 3) rfl rfl
    (by decide) (Or.inl rfl)).2 (by decide)
  refine ⟨?_, ?_⟩
  · rw [h.1]
    decide
  · rw [h.2]
    decide

/-- C7: over a normalized table and a validated range, `get_data_for_period`
returns the date-plus-resolved-column subtable of the in-range rows with
missing values dropped; for the electricity kind, when that subtable is
empty but the in-range rows hold non-missing gas values, the gas-based
subtable is returned instead; in every remaining case the result is
NoData.  The gas kind has no such fallback. -/
theorem c7_data_for_period (nt : List NRow) (sTxt eTxt : String)
    (ds de : Nat) (hs : parseDate sTxt = some ds)
    (he : parseDate eTxt = some de) (hle : ds ≤ de) :
    (inR nt ((ds : Int) * 86400) ((de : Int) * 86400 + 86399) = [] →
      getDataForPeriod (toTable nt) sTxt eTxt "electricity" = none) ∧
    ((inR nt ((ds : Int) * 86400) ((de : Int) * 86400 + 86399)).filter
        (fun r => r.elec.isSome) ≠ [] →
      getDataForPeriod (toTable nt) sTxt eTxt "electricity" =
        some ⟨["date", "electricity_consumption"],
          ((inR nt ((ds : Int) * 86400)
            ((de : Int) * 86400 + 86399)).filter
              (fun r => r.elec.isSome)).map
            (fun r => [Cell.ts r.date, Cell.num r.elec])⟩) ∧
    (inR nt ((ds : Int) * 86400) ((de : Int) * 86400 + 86399) ≠ [] →
      (inR nt ((ds : Int) * 86400) ((de : Int) * 86400 + 86399)).filter
        (fun r => r.elec.isSome) = [] →
      (inR nt ((ds : Int) * 86400) ((de : Int) * 86400 + 86399)).filter
        (fun r => r.gas.isSome) ≠ [] →
      getDataForPeriod (toTable nt) sTxt eTxt "electricity" =
        some ⟨["date", "gas_consumption"],
          ((inR nt ((ds : Int) * 86400)
            ((de : Int) * 86400 + 86399)).filter
              (fun r => r.gas.isSome)).map
            (fun r => [Cell.ts r.date, Cell.num r.gas])⟩) ∧
    (inR nt ((ds : Int) * 86400) ((de : Int) * 86400 + 86399) ≠ [] →
      (inR nt ((ds : Int) * 86400) ((de : Int) * 86400 + 86399)).filter
        (fun r => r.elec.isSome) = [] →
      (inR nt ((ds : Int) * 86400) ((de : Int) * 86400 + 86399)).filter
        (fun r => r.gas.isSome) = [] →
      getDataForPeriod (toTable nt) sTxt eTxt "electricity" = none) ∧
    (inR nt ((ds : Int) * 86400) ((de : Int) * 86400 + 86399) = [] →
      getDataForPeriod (toTable nt) sTxt eTxt "gas" = none) ∧
    ((inR nt ((ds : Int) * 86400) ((de : Int) * 86400 + 86399)).filter
        (fun r => r.gas.isSome) ≠ [] →
      getDataForPeriod (toTable nt) sTxt eTxt "gas" =
        some ⟨["date", "gas_consumption"],
          ((inR nt ((ds : Int) * 86400)
            ((de : Int) * 86400 + 86399)).filter
              (fun r => r.gas.isSome)).map
            (fun r => [Cell.ts r.date, Cell.num r.gas])⟩) ∧
    (inR nt ((ds : Int) * 86400) ((de : Int) * 86400 + 86399) ≠ [] →
      (inR nt ((ds : Int) * 86400) ((de : Int) * 86400 + 86399)).filter
        (fun r => r.gas.isSome) = [] →
      getDataForPeriod (toTable nt) sTxt eTxt "gas" = none) := by
  have hok := validateDateRange_ok hs he hle
  have hel := getDataForPeriod_elec_char nt hok
  have hga := getDataForPeriod_gas_char nt hok
  exact ⟨hel.1, hel.2.1, hel.2.2.1, hel.2.2.2, hga.1, hga.2.1, hga.2.2⟩

/-- C7 instantiated: a range whose only row has a missing electricity
value but a present gas value falls back to the gas subtable. -/
theorem c7_data_for_period_witness :
    getDataForPeriod (toTable exMissingElec) "2024-12-01" "2024-12-01"
      "electricity" =
      some ⟨["date", "gas_consumption"],
        ((inR exMissingElec ((dayNum 2024 12 1 : Int) * 86400)
          ((dayNum 2024 12 1 : Int) * 86400 + 86399)).filter
            (fun r => r.gas.isSome)).map
          (fun r => [Cell.ts r.date, Cell.num r.gas])⟩ :=
  (c7_data_for_period exMissingElec "2024-12-01" "2024-12-01"
    (dayNum 2024 12 1) (dayNum 2024 12 1) rfl rfl le_rfl).2.2.1
    (by decide) (by decide) (by decide)

/-! ### Loader lemmas -/

theorem findIdxq_exists {α : Type} (p : α → Bool) :
    ∀ (l : List α) (i j : Nat), List.findIdx? p l i = some j →
      ∃ x ∈ l, p x = true := by
  intro l
  induction l with
  | nil =>
    intro i j h
    rw [List.findIdx?_nil] at h
    cases h
  | cons x xs ih =>
    intro i j h
    rw [List.findIdx?_cons] at h
    by_cases hp : p x = true
    · exact ⟨x, List.mem_cons_self x xs, hp⟩
    · rw [if_neg hp] at h
      rcases ih (i + 1) j h with ⟨y, hy, hpy⟩
      exact ⟨y, List.mem_cons_of_mem x hy, hpy⟩

theorem findIdxq_bound {α : Type} (p : α → Bool) :
    ∀ (l : List α) (i j : Nat), List.findIdx? p l i = some j →
      i ≤ j ∧ j < i + l.length := by
  intro l
  induction l with
  | nil =>
    intro i j h
    rw [List.findIdx?_nil] at h
    cases h
  | cons x xs ih =>
    intro i j h
    rw [List.findIdx?_cons] at h
    by_cases hp : p x = true
    · rw [if_pos hp] at h
      cases h
      constructor
      · exact Nat.le_refl _
      · simp
    · rw [if_neg hp] at h
      rcases ih (i + 1) j h with ⟨h1, h2⟩
      constructor
      · omega
      · simp only [List.length_cons]
        omega

theorem tagCells_get (j : Nat) (d : Int) :
    ∀ (cs : List RawCell) (p k : Nat),
      (tagCells j d p cs).get? k =
        (cs.get? k).map (fun c =>
          if p + k == j then Cell.ts d else Cell.num (rawCellNum c)) := by
  intro cs
  induction cs with
  | nil =>
    intro p k
    rfl
  | cons c cs ih =>
    intro p k
    cases k with
    | zero =>
      simp [tagCells]
    | succ k' =>
      show (tagCells j d (p + 1) cs).get? k' = _
      rw [ih (p + 1) k']
      simp only [show p + 1 + k' = p + (k' + 1) from by omega]
      rfl

theorem length_filterMap_eq {α β : Type} (f : α → Option β) (l : List α) :
    (l.filterMap f).length = (l.filter (fun x => (f x).isSome)).length := by
  induction l with
  | nil => rfl
  | cons x xs ih =>
    rw [List.filterMap_cons, List.filter_cons]
    cases hx : f x with
    | none =>
      simp only [hx, Option.isSome_none]
      rw [if_neg (by simp)]
      exact ih
    | some b =>
      simp only [hx, Option.isSome_some]
      rw [if_pos trivial]
      simp only [List.length_cons]
      rw [ih]

theorem mkRow_isSome (hdr keep : List String) (j : Nat) (r : List RawCell) :
    (mkRow hdr keep j r).isSome =
      (rawCellToDate ((projRow hdr keep r).getD j RawCell.empty)).isSome := by
  cases hc : rawCellToDate ((projRow hdr keep r).getD j RawCell.empty) with
  | none =>
    simp only [mkRow, hc]
    rfl
  | some d =>
    simp only [mkRow, hc]
    rfl

theorem loadCsv_inv {raw : RawTable} {t : Table} (h : loadCsv raw = some t) :
    ∃ dcol j,
      dateColOf raw = some dcol ∧
      t.cols = (loadKeepF raw dcol).map
        (renameOf dcol (consumptionCols raw).1 (consumptionCols raw).2) ∧
      t.cols.findIdx? (fun n => n == "date") = some j ∧
      t.rows = raw.rows.filterMap (fun r =>
        if flagOkRow raw r then mkRow raw.header (loadKeepF raw dcol) j r
        else none) := by
  by_cases h2 : raw.header.length < 2
  · simp only [loadCsv, if_pos h2] at h
    cases h
  · cases hd : dateColOf raw with
    | none =>
      simp only [loadCsv, if_neg h2, hd] at h
      cases h
    | some dcol =>
      by_cases hk : (loadKeepF raw dcol).length < 2
      · simp only [loadCsv, if_neg h2, hd, if_pos hk] at h
        cases h
      · cases hj : ((loadKeepF raw dcol).map
            (renameOf dcol (consumptionCols raw).1
              (consumptionCols raw).2)).findIdx? (fun n => n == "date") with
        | none =>
          simp only [loadCsv, if_neg h2, hd, if_neg hk, hj] at h
          cases h
        | some j =>
          simp only [loadCsv, if_neg h2, hd, if_neg hk, hj] at h
          cases h
          exact ⟨dcol, j, rfl, rfl, hj, rfl⟩

theorem renameOf_eq_date_cases {dcol : String} {eOpt gOpt : Option String}
    {c : String} (h : renameOf dcol eOpt gOpt c = "date") :
    (gOpt == some c) = false ∧ (eOpt == some c) = false ∧
      (c = dcol ∨ c = "date") := by
  unfold renameOf at h
  by_cases hg : (gOpt == some c) = true
  · rw [if_pos hg] at h
    exact absurd h (by decide)
  · rw [if_neg hg] at h
    by_cases hel : (eOpt == some c) = true
    · rw [if_pos hel] at h
      exact absurd h (by decide)
    · rw [if_neg hel] at h
      refine ⟨by simpa using hg, by simpa using hel, ?_⟩
      by_cases hd : (c == dcol) = true
      · exact Or.inl (eq_of_beq hd)
      · rw [if_neg hd] at h
        exact Or.inr h

theorem loadKeepF_mem_cases {raw : RawTable} {dcol x : String}
    (hx : x ∈ loadKeepF raw dcol) :
    (x = dcol ∨ (consumptionCols raw).1 = some x ∨
      (consumptionCols raw).2 = some x) ∧
    raw.header.contains x = true := by
  unfold loadKeepF at hx
  rcases List.mem_filter.mp hx with ⟨hmem, hcont⟩
  refine ⟨?_, hcont⟩
  rcases List.mem_append.mp hmem with hm | hm
  · rcases List.mem_append.mp hm with hm' | hm'
    · exact Or.inl (List.mem_singleton.mp hm')
    · exact Or.inr (Or.inl (Option.mem_toList.mp hm'))
  · exact Or.inr (Or.inr (Option.mem_toList.mp hm))

theorem loadCsv_cols_head {raw : RawTable} {t : Table}
    (h : loadCsv raw = some t) : t.cols.head? = some "date" := by
  obtain ⟨dcol, j, hd, hcols, hfind, hrows⟩ := loadCsv_inv h
  obtain ⟨x, hxmem, hxeq⟩ := findIdxq_exists _ _ 0 j hfind
  have hxdate : x = "date" := eq_of_beq hxeq
  subst hxdate
  rw [hcols] at hxmem
  rcases List.mem_map.mp hxmem with ⟨y, hy, hyren⟩
  have hcases := (loadKeepF_mem_cases hy).1
  have hrc := renameOf_eq_date_cases hyren
  have hydcol : y = dcol := by
    rcases hcases with h1 | hcE | hcG
    · exact h1
    · exfalso
      have hfalse := hrc.2.1
      rw [hcE] at hfalse
      simp at hfalse
    · exfalso
      have hfalse := hrc.1
      rw [hcG] at hfalse
      simp at hfalse
  have hy2 : dcol ∈ loadKeepF raw dcol := hydcol ▸ hy
  have hgf : ((consumptionCols raw).2 == some dcol) = false := hydcol ▸ hrc.1
  have hef : ((consumptionCols raw).1 == some dcol) = false :=
    hydcol ▸ hrc.2.1
  have hcont : raw.header.contains dcol = true := (loadKeepF_mem_cases hy2).2
  have hkeep : loadKeepF raw dcol =
      dcol :: (((consumptionCols raw).1.toList ++
        (consumptionCols raw).2.toList).filter
          (fun c => raw.header.contains c)) := by
    unfold loadKeepF
    rw [show [dcol] ++ (consumptionCols raw).1.toList ++
        (consumptionCols raw).2.toList =
        dcol :: ((consumptionCols raw).1.toList ++
          (consumptionCols raw).2.toList) from rfl]
    rw [List.filter_cons, if_pos hcont]
  rw [hcols, hkeep]
  show some (renameOf dcol (consumptionCols raw).1
    (consumptionCols raw).2 dcol) = some "date"
  simp [renameOf, hgf, hef]

/-- C8 counterexample: a raw table whose name-matched date column is
numeric-typed (header `datenum` holding numbers) and whose names match no
electricity or gas pattern — the source's numeric fallback assigns that
very date column to electricity, while the spec's fallback (which excludes
the date column from the candidates) assigns the other column. -/
theorem c8_numeric_fallback_counterexample :
    dateColOf exNumDate = some "datenum" ∧
    (consumptionCols exNumDate).1 = some "datenum" ∧
    (consumptionColsSpec exNumDate).1 = some "v1" :=
  ⟨rfl, rfl, rfl⟩

/-- C8 amended: when no column name matches an electricity or gas
pattern, classification assigns the first numeric-typed column to
electricity and the second (if any) to gas, where the candidates are ALL
numeric-typed columns in header order — the already-resolved date column
is not excluded; when some name does match, the numeric fallback is not
consulted. -/
theorem c8_numeric_fallback_all_numeric (raw : RawTable) :
    (findByPatternsCI elecPatterns raw.header = none →
      findByPatternsCI gasPatterns raw.header = none →
      consumptionCols raw =
        ((numericCols raw).get? 0, (numericCols raw).get? 1)) ∧
    (findByPatternsCI elecPatterns raw.header ≠ none ∨
      findByPatternsCI gasPatterns raw.header ≠ none →
      consumptionCols raw =
        (findByPatternsCI elecPatterns raw.header,
         findByPatternsCI gasPatterns raw.header)) := by
  constructor
  · intro h1 h2
    simp [consumptionCols, h1, h2]
  · intro h
    have hcond : ((findByPatternsCI elecPatterns raw.header).isNone &&
        (findByPatternsCI gasPatterns raw.header).isNone) = false := by
      rcases h with h | h
      · cases he : findByPatternsCI elecPatterns raw.header with
        | none => exact absurd he h
        | some c => rfl
      · cases hg : findByPatternsCI gasPatterns raw.header with
        | none => exact absurd hg h
        | some c => simp
    simp [consumptionCols, hcond]

/-- C8 amended, instantiated: on the numeric-date table the fallback
returns the first two numeric columns, date column included. -/
theorem c8_numeric_fallback_witness :
    consumptionCols exNumDate =
      ((numericCols exNumDate).get? 0, (numericCols exNumDate).get? 1) :=
  (c8_numeric_fallback_all_numeric exNumDate).1 rfl rfl

/-- C9: every row of a successfully loaded table carries a parsed
timestamp in the date column — a raw row is dropped exactly when its date
cell fails to parse (or is flagged to be ignored) — while every non-date
cell of a kept row is a numeric cell, possibly missing, so a failed
numeric coercion never drops the row. -/
theorem c9_valid_dates_missing_retained (raw : RawTable) (t : Table)
    (h : loadCsv raw = some t) :
    ∃ dcol j, dateColOf raw = some dcol ∧
      t.cols.findIdx? (fun n => n == "date") = some j ∧
      (∀ row ∈ t.rows, ∃ d, row.get? j = some (Cell.ts d)) ∧
      (∀ row ∈ t.rows, ∀ p c', row.get? p = some c' → p ≠ j →
        ∃ ov, c' = Cell.num ov) ∧
      t.rows.length = (raw.rows.filter (fun r =>
        flagOkRow raw r &&
        (rawCellToDate ((projRow raw.header (loadKeepF raw dcol) r).getD j
          RawCell.empty)).isSome)).length := by
  obtain ⟨dcol, j, hd, hcols, hfind, hrows⟩ := loadCsv_inv h
  have hjlt : j < (loadKeepF raw dcol).length := by
    rw [hcols] at hfind
    have hb := findIdxq_bound _ _ 0 j hfind
    have := hb.2
    rw [List.length_map] at this
    omega
  have hrowdest : ∀ row ∈ t.rows, ∃ r ∈ raw.rows,
      flagOkRow raw r = true ∧ ∃ d,
        rawCellToDate ((projRow raw.header (loadKeepF raw dcol) r).getD j
          RawCell.empty) = some d ∧
        row = tagCells j d 0 (projRow raw.header (loadKeepF raw dcol) r) := by
    intro row hmem
    rw [hrows] at hmem
    rcases List.mem_filterMap.mp hmem with ⟨r, hrmem, hfr⟩
    by_cases hflag : flagOkRow raw r = true
    · rw [if_pos hflag] at hfr
      cases hcd : rawCellToDate
          ((projRow raw.header (loadKeepF raw dcol) r).getD j
            RawCell.empty) with
      | none =>
        simp only [mkRow, hcd] at hfr
        cases hfr
      | some d =>
        simp only [mkRow, hcd, Option.some.injEq] at hfr
        exact ⟨r, hrmem, hflag, d, hcd, hfr.symm⟩
    · rw [if_neg hflag] at hfr
      cases hfr
  refine ⟨dcol, j, hd, by rw [hcols] at hfind ⊢; exact hfind, ?_, ?_, ?_⟩
  · intro row hmem
    rcases hrowdest row hmem with ⟨r, _, _, d, hcd, hrow⟩
    refine ⟨d, ?_⟩
    rw [hrow, tagCells_get]
    cases hg : (projRow raw.header (loadKeepF raw dcol) r).get? j with
    | none =>
      exfalso
      have := List.get?_eq_none.mp hg
      rw [projRow, List.length_map] at this
      omega
    | some c =>
      simp [Nat.zero_add]
  · intro row hmem p c' hc' hpj
    rcases hrowdest row hmem with ⟨r, _, _, d, hcd, hrow⟩
    rw [hrow, tagCells_get] at hc'
    rcases Option.map_eq_some'.mp hc' with ⟨c, _, hcc⟩
    rw [← hcc]
    have hne : (0 + p == j) = false := by
      rw [Nat.zero_add]
      exact beq_eq_false_iff_ne.mpr hpj
    have hne' : ¬ ((0 + p == j) = true) := by
      rw [hne]
      exact Bool.false_ne_true
    rw [if_neg hne']
    exact ⟨rawCellNum c, rfl⟩
  · rw [hrows, length_filterMap_eq]
    have hcong : ∀ r ∈ raw.rows,
        ((if flagOkRow raw r then
          mkRow raw.header (loadKeepF raw dcol) j r else none).isSome) =
        (flagOkRow raw r &&
          (rawCellToDate
            ((projRow raw.header (loadKeepF raw dcol) r).getD j
              RawCell.empty)).isSome) := by
      intro r _
      by_cases hflag : flagOkRow raw r = true
      · rw [if_pos hflag, hflag, Bool.true_and]
        exact mkRow_isSome raw.header (loadKeepF raw dcol) j r
      · have hff : flagOkRow raw r = false := by
          simpa using hflag
        rw [if_neg hflag, hff, Bool.false_and]
        rfl
    rw [List.filter_congr hcong]

/-- C9 instantiated on a three-row raw file: the unparsable-date row is
dropped, the row whose consumption cell fails coercion is kept with a
missing value. -/
theorem c9_valid_dates_witness :
    ∃ dcol j, dateColOf exRawLoad = some dcol ∧
      exLoaded.cols.findIdx? (fun n => n == "date") = some j ∧
      (∀ row ∈ exLoaded.rows, ∃ d, row.get? j = some (Cell.ts d)) ∧
      (∀ row ∈ exLoaded.rows, ∀ p c', row.get? p = some c' → p ≠ j →
        ∃ ov, c' = Cell.num ov) ∧
      exLoaded.rows.length = (exRawLoad.rows.filter (fun r =>
        flagOkRow exRawLoad r &&
        (rawCellToDate
          ((projRow exRawLoad.header (loadKeepF exRawLoad dcol) r).getD j
            RawCell.empty)).isSome)).length :=
  c9_valid_dates_missing_retained exRawLoad exLoaded rfl

/-- C10: every successful load places the `date` column first, and under
that invariant the timestamp-returning operations — which read the first
column of the filtered frame — indeed return the date of the row they
select: the extrema return their own row's date, and every row of a
`get_data_for_period` subtable starts with its row's date under a leading
`date` column. -/
theorem c10_date_first_and_timestamp_reads (raw : RawTable) (t : Table)
    (nt : List NRow) (sTxt eTxt k : String) (ds de : Nat)
    (hload : loadCsv raw = some t)
    (hs : parseDate sTxt = some ds) (he : parseDate eTxt = some de)
    (hle : ds ≤ de) (hk : k = "electricity" ∨ k = "gas") :
    t.cols.head? = some "date" ∧
    (∀ v c, getMinimum (toTable nt) sTxt eTxt k = some (v, c) →
      ∃ r, r ∈ inR nt ((ds : Int) * 86400) ((de : Int) * 86400 + 86399) ∧
        c = Cell.ts r.date ∧ r.kindVal k = some v) ∧
    (∀ v c, getMaximum (toTable nt) sTxt eTxt k = some (v, c) →
      ∃ r, r ∈ inR nt ((ds : Int) * 86400) ((de : Int) * 86400 + 86399) ∧
        c = Cell.ts r.date ∧ r.kindVal k = some v) ∧
    (∀ out, getDataForPeriod (toTable nt) sTxt eTxt "electricity" =
        some out →
      out.cols.head? = some "date" ∧
      ∀ row ∈ out.rows, ∃ r,
        r ∈ inR nt ((ds : Int) * 86400) ((de : Int) * 86400 + 86399) ∧
        row.get? 0 = some (Cell.ts r.date)) := by
  have hok := validateDateRange_ok hs he hle
  have hAmin : ∀ x y : ℚ, decide (x < y) = true → decide (y < x) = false := by
    intro x y hxy
    have := of_decide_eq_true hxy
    exact decide_eq_false (not_lt.mpr this.le)
  have hTmin : ∀ x y z : ℚ, decide (x < y) = false → decide (y < z) = false →
      decide (x < z) = false := by
    intro x y z h1 h2
    exact decide_eq_false (not_lt.mpr (le_trans
      (not_lt.mp (of_decide_eq_false h2)) (not_lt.mp (of_decide_eq_false h1))))
  have hAmax : ∀ x y : ℚ, decide (y < x) = true → decide (x < y) = false := by
    intro x y hxy
    have := of_decide_eq_true hxy
    exact decide_eq_false (not_lt.mpr this.le)
  have hTmax : ∀ x y z : ℚ, decide (y < x) = false → decide (z < y) = false →
      decide (z < x) = false := by
    intro x y z h1 h2
    exact decide_eq_false (not_lt.mpr (le_trans
      (not_lt.mp (of_decide_eq_false h1)) (not_lt.mp (of_decide_eq_false h2))))
  have hperiod : ∀ out,
      getDataForPeriod (toTable nt) sTxt eTxt "electricity" = some out →
      out.cols.head? = some "date" ∧
      ∀ row ∈ out.rows, ∃ r,
        r ∈ inR nt ((ds : Int) * 86400) ((de : Int) * 86400 + 86399) ∧
        row.get? 0 = some (Cell.ts r.date) := by
    have hel := getDataForPeriod_elec_char nt hok
    intro out hout
    by_cases hL : inR nt ((ds : Int) * 86400)
        ((de : Int) * 86400 + 86399) = []
    · rw [hel.1 hL] at hout
      cases hout
    · by_cases hEe : (inR nt ((ds : Int) * 86400)
          ((de : Int) * 86400 + 86399)).filter (fun r => r.elec.isSome) = []
      · by_cases hG : (inR nt ((ds : Int) * 86400)
            ((de : Int) * 86400 + 86399)).filter (fun r => r.gas.isSome) = []
        · rw [hel.2.2.2 hL hEe hG] at hout
          cases hout
        · rw [hel.2.2.1 hL hEe hG] at hout
          cases hout
          refine ⟨rfl, ?_⟩
          intro row hrow
          rcases List.mem_map.mp hrow with ⟨r, hr, rfl⟩
          exact ⟨r, (List.mem_filter.mp hr).1, rfl⟩
      · rw [hel.2.1 hEe] at hout
        cases hout
        refine ⟨rfl, ?_⟩
        intro row hrow
        rcases List.mem_map.mp hrow with ⟨r, hr, rfl⟩
        exact ⟨r, (List.mem_filter.mp hr).1, rfl⟩
  rcases hk with rfl | rfl
  · have hmin := getExtremum_char (fun w v => decide (w < v)) hAmin hTmin nt
      (fun r => r.elec) hok (resolveColumn_toTable_elec nt)
      colIdx_toTable_elec colVals_toTable_elec
    have hmax := getExtremum_char (fun w v => decide (v < w)) hAmax hTmax nt
      (fun r => r.elec) hok (resolveColumn_toTable_elec nt)
      colIdx_toTable_elec colVals_toTable_elec
    refine ⟨loadCsv_cols_head hload, ?_, ?_, hperiod⟩
    · intro v c hvc
      obtain ⟨i, r, h1, h2, h3, -, -⟩ := hmin.2 v c hvc
      exact ⟨r, List.get?_mem h1, h3, h2⟩
    · intro v c hvc
      obtain ⟨i, r, h1, h2, h3, -, -⟩ := hmax.2 v c hvc
      exact ⟨r, List.get?_mem h1, h3, h2⟩
  · have hmin := getExtremum_char (fun w v => decide (w < v)) hAmin hTmin nt
      (fun r => r.gas) hok (resolveColumn_toTable_gas nt)
      colIdx_toTable_gas colVals_toTable_gas
    have hmax := getExtremum_char (fun w v => decide (v < w)) hAmax hTmax nt
      (fun r => r.gas) hok (resolveColumn_toTable_gas nt)
      colIdx_toTable_gas colVals_toTable_gas
    refine ⟨loadCsv_cols_head hload, ?_, ?_, hperiod⟩
    · intro v c hvc
      obtain ⟨i, r, h1, h2, h3, -, -⟩ := hmin.2 v c hvc
      exact ⟨r, List.get?_mem h1, h3, h2⟩
    · intro v c hvc
      obtain ⟨i, r, h1, h2, h3, -, -⟩ := hmax.2 v c hvc
      exact ⟨r, List.get?_mem h1, h3, h2⟩

/-- C10 instantiated: the loaded example table has `date` first, and the
minimum over the three-row example returns the date of the row holding
the value 5. -/
theorem c10_date_first_witness :
    exLoaded.cols.head? = some "date" ∧
    ∃ r, r ∈ inR exThree ((dayNum 2024 12 1 : Int) * 86400)
        ((dayNum 2024 12 3 : Int) * 86400 + 86399) ∧
      Cell.ts ((dec1 + 1) * 86400) = Cell.ts r.date ∧
      r.kindVal "electricity" = some 5 := by
  have h := c10_date_first_and_timestamp_reads exRawLoad exLoaded exThree
    "2024-12-01" "2024-12-03" "electricity" (dayNum 2024 12 1)
    (dayNum 2024 12 3) rfl rfl rfl (by decide) (Or.inl rfl)
  exact ⟨h.1, h.2.1 5 (Cell.ts ((dec1 + 1) * 86400)) rfl⟩
